import Mathlib

/-!
# insdump: a verification development

A shallow embedding of `insdump.c` (a ptrace based single-step instruction
dumper) and theorems about its line buffer, its output format, its memory
window and its tracer loop.

Conventions of the embedding

* C strings and `char` arrays are `List Char`; the terminator is `NUL`.
* A store through a pointer is `write_at`, which is `none` when the store
  would leave the array; a load outside an array is `none` as well. The
  tracer loop turns `none` into the outcome `undefined`.
* The operating system and libopcodes are inputs: the outcomes of `fork`,
  `execvp`, `wait`, `ptrace` and `print_insn_i386` are supplied by the caller
  of the model, the program text decides what is done with them.
* `long` values are `Int`, `unsigned long` values are `Nat`; conversions
  between them reduce modulo `2 ^ LONG_BIT`.
-/

namespace Insdump

/-! ## Constants of the C library -/

/-- The value of `EXIT_SUCCESS`. -/
def EXIT_SUCCESS : Nat := 0

/-- The value of `EXIT_FAILURE`. -/
def EXIT_FAILURE : Nat := 1

/-- The value of `EINTR` on Linux. -/
def EINTR : Nat := 4

/-- The string terminator. -/
def NUL : Char := Char.ofNat 0

/-- The horizontal tab. -/
def TAB : Char := Char.ofNat 9

/-- The line feed. -/
def LF : Char := Char.ofNat 10

/-- The literal that `id_buffer_printf` copies to the end of an overflowing buffer. -/
def MARKER : List Char := ['.', '.', '.']

/-! ## `struct id_buffer` and `id_buffer_printf` -/

/-- The C `struct id_buffer`; `data` is the array `char data[128]`. -/
structure id_buffer where
  cap : Nat
  len : Nat
  data : List Char
deriving DecidableEq

/-- The number of elements of `buffer.data`, that is `sizeof (buffer.data)`. -/
def DATA_SIZE : Nat := 128

/-- What `vsnprintf` makes of one `fmt, ...` pair: the complete expansion of the
format, or an output error (a negative return value), in which case `junk` is whatever the
call left in the part of the array it was given. -/
inductive Fmt where
  | text (t : List Char)
  | error (junk : List Char)
deriving DecidableEq

/-- Store `src` at `data + off`; `none` when the store does not fit the array. -/
def write_at (data : List Char) (off : Nat) (src : List Char) : Option (List Char) :=
  if off + src.length ≤ data.length then
    some (data.take off ++ src ++ data.drop (off + src.length))
  else
    none

/-- The call `vsnprintf (data + off, n, fmt, args)` for a format expanding to `text`: at most
`n - 1` characters of the expansion are stored, followed by a terminator; nothing is
stored when `n = 0`. The return value of the call is `text.length`. -/
def vsnprintf (data : List Char) (off n : Nat) (text : List Char) : Option (List Char) :=
  if n = 0 then some data else write_at data off (text.take (n - 1) ++ [NUL])

/-- The call `strcpy (data + off, src)`: the characters of `src` and a terminator. -/
def strcpy (data : List Char) (off : Nat) (src : List Char) : Option (List Char) :=
  write_at data off (src ++ [NUL])

/-- The text a `char` array holds when read as a C string: everything before the first
terminator. -/
def c_str (data : List Char) : List Char :=
  data.takeWhile (fun c => c != NUL)

/-- The function `id_buffer_printf` (insdump.c, lines 84-108), applied to the global `buffer`.
The result is the new buffer and the return value, or `none` after an out-of-bounds store.
The subtraction
`buffer.cap - 4` is a `size_t` subtraction in C; it cannot wrap here because `id_init` is
the only place that sets `cap`, to 128. -/
def id_buffer_printf (buffer : id_buffer) (f : Fmt) : Option (id_buffer × Int) :=
  if buffer.len ≥ buffer.cap then
    some (buffer, -1)
  else
    match f with
    | Fmt.text t =>
      (vsnprintf buffer.data buffer.len (buffer.cap - buffer.len) t).bind fun d1 =>
        let ret := t.length
        (if buffer.len + ret > buffer.cap then strcpy d1 (buffer.cap - 4) MARKER
          else some d1).bind fun d2 =>
          some ({ buffer with len := buffer.len + ret, data := d2 }, (ret : Int))
    | Fmt.error junk =>
      (write_at buffer.data buffer.len (junk.take (buffer.cap - buffer.len))).bind fun d0 =>
        (write_at d0 0 [NUL]).bind fun d =>
          some ({ buffer with len := 0, data := d }, -1)

/-- The two statements at the start of `id_print` (lines 129-130):
`buffer.len = 0; buffer.data[0] = 0`. -/
def id_print_reset (buffer : id_buffer) : Option id_buffer :=
  (write_at buffer.data 0 [NUL]).bind fun d =>
    some { buffer with len := 0, data := d }

/-- The global `buffer` before `main` runs: static storage is zero filled. -/
def static_buffer : id_buffer :=
  { cap := 0, len := 0, data := List.replicate DATA_SIZE NUL }

/-- The global `buffer` after `id_init` (lines 179-180): `cap` is `sizeof (buffer.data)`. -/
def id_init_buffer : id_buffer :=
  { static_buffer with cap := DATA_SIZE, len := 0 }

/-- The calls a disassembler makes through its `fprintf` callback, one after the other. -/
def id_buffer_printfs : id_buffer → List Fmt → Option id_buffer
  | b, [] => some b
  | b, f :: fs => (id_buffer_printf b f).bind fun r => id_buffer_printfs r.1 fs

/-- The operations the program performs on the global `buffer`. -/
inductive BufOp where
  | reset
  | printf (f : Fmt)
deriving DecidableEq

/-- Run a sequence of buffer operations. -/
def run_ops : id_buffer → List BufOp → Option id_buffer
  | b, [] => some b
  | b, BufOp.reset :: ops => (id_print_reset b).bind fun b1 => run_ops b1 ops
  | b, BufOp.printf f :: ops => (id_buffer_printf b f).bind fun r => run_ops r.1 ops

/-- Well-formedness of the global buffer: the capacity is the size of the array and the
array holds a terminator. -/
def buffer_ok (b : id_buffer) : Prop :=
  b.cap = DATA_SIZE ∧ b.data.length = DATA_SIZE ∧ NUL ∈ b.data

instance (b : id_buffer) : Decidable (buffer_ok b) := by
  unfold buffer_ok
  infer_instance

/-- The array after the `vsnprintf` call of `id_buffer_printf`. -/
def stored_d1 (b : id_buffer) (t : List Char) : List Char :=
  b.data.take b.len ++ (t.take (b.cap - b.len - 1) ++ [NUL]) ++
    b.data.drop (b.len + (t.take (b.cap - b.len - 1) ++ [NUL]).length)

/-- The array after the `strcpy` call of `id_buffer_printf`. -/
def stored_d2 (b : id_buffer) (t : List Char) : List Char :=
  (stored_d1 b t).take (b.cap - 4) ++ (MARKER ++ [NUL]) ++
    (stored_d1 b t).drop (b.cap - 4 + (MARKER ++ [NUL]).length)

/-- A formatted text is a C string: it holds no terminator. -/
def Fmt.nul_free : Fmt → Prop
  | Fmt.text t => NUL ∉ t
  | Fmt.error _ => True

instance (f : Fmt) : Decidable f.nul_free := by
  cases f <;> unfold Fmt.nul_free <;> infer_instance

/-- The invariant behind the truncation marker. -/
def marker_inv (b : id_buffer) : Prop :=
  b.cap = DATA_SIZE ∧ b.data.length = DATA_SIZE ∧
    (b.len < b.cap → ∀ c ∈ b.data.take b.len, c ≠ NUL) ∧
    (b.len > b.cap → MARKER <:+ c_str b.data ∧ (c_str b.data).length = b.cap - 1)

instance (b : id_buffer) : Decidable (marker_inv b) := by
  unfold marker_inv
  infer_instance

/-! ## Build configuration, `struct id_instr` and the byte view of the window -/

/-- The two compile time inputs of the program: the macro `BFD_ARCH_SIZE` of `bfd.h` and
`sizeof (long)` of the target ABI. -/
structure Config where
  BFD_ARCH_SIZE : Nat
  sizeof_long : Nat
deriving DecidableEq

/-- The 64-bit build: `BFD_ARCH_SIZE == 64`, `sizeof (long) == 8`. -/
def config64 : Config := { BFD_ARCH_SIZE := 64, sizeof_long := 8 }

/-- The 32-bit build: `BFD_ARCH_SIZE == 32`, `sizeof (long) == 4`. -/
def config32 : Config := { BFD_ARCH_SIZE := 32, sizeof_long := 4 }

/-- The macro `WORDS_PER_INSTR` (lines 29-33). -/
def WORDS_PER_INSTR (cfg : Config) : Nat :=
  if cfg.BFD_ARCH_SIZE = 64 then 2 else 4

/-- The longest x86 instruction, as the comment above `WORDS_PER_INSTR` has it:
"An x86 instruction doesn't exceed 15 bytes". -/
def MAX_INSTR_LEN : Nat := 15

/-- The number of bits of a `long`. -/
def LONG_BIT (cfg : Config) : Nat := 8 * cfg.sizeof_long

/-- Conversion of a `long` to `unsigned long`. -/
def to_ulong (cfg : Config) (v : Int) : Nat :=
  (v % 2 ^ LONG_BIT cfg).toNat

/-- Conversion of an `unsigned long` to `long` (two's complement). -/
def to_long (cfg : Config) (n : Nat) : Int :=
  if n % 2 ^ LONG_BIT cfg < 2 ^ (LONG_BIT cfg - 1) then ((n % 2 ^ LONG_BIT cfg : Nat) : Int)
  else ((n % 2 ^ LONG_BIT cfg : Nat) : Int) - 2 ^ LONG_BIT cfg

/-- Conversion of a byte value to `char`, which is signed on x86. -/
def to_char (n : Nat) : Int :=
  if n % 256 < 128 then ((n % 256 : Nat) : Int) else ((n % 256 : Nat) : Int) - 256

/-- The C `struct id_instr`; `data` is the array `long data[WORDS_PER_INSTR]`. -/
structure id_instr where
  ip : Int
  data : List Int

/-- The `sizeof (long)` bytes of one `long` in memory, lowest address first (x86 is little
endian), each as a `char`. -/
def long_bytes (cfg : Config) (w : Int) : List Int :=
  (List.range cfg.sizeof_long).map fun j => to_char (to_ulong cfg w / 256 ^ j % 256)

/-- The view `char *bytes = (char *) ins->data` of `id_print` (line 125). -/
def instr_bytes (cfg : Config) (ins : id_instr) : List Int :=
  ins.data.flatMap (long_bytes cfg)

/-! ## `printf` conversions -/

/-- The conversion `%lx` applied to a `long` argument: the value as `unsigned long` in
lowercase hexadecimal, no padding. -/
def printf_lx (cfg : Config) (v : Int) : List Char :=
  Nat.toDigits 16 (to_ulong cfg v)

/-- The conversion `%02x`: lowercase hexadecimal, zero padded to at least two digits. -/
def printf_02x (v : Nat) : List Char :=
  List.replicate (2 - (Nat.toDigits 16 v).length) '0' ++ Nat.toDigits 16 v

/-- The format literal of line 159: 21 spaces, a tab, `%s` and a line feed. -/
def PAD_FORMAT : List Char :=
  List.replicate 21 ' ' ++ [TAB, '%', 's', LF]

/-- The call `printf (fmt, arg)` for a format whose only conversion is one `%s`. -/
def printf_s : List Char → List Char → List Char
  | [], _ => []
  | [c], _ => [c]
  | c :: d :: rest, arg =>
    if c = '%' ∧ d = 's' then arg ++ rest else c :: printf_s (d :: rest) arg

/-- The loop of lines 142-143: `for (i = 0; i < s; i++) printf ("%02x ", bytes[i] & 0xff)`,
started at index `i` with `n` iterations to go; `none` when `bytes[i]` lies outside the
array. -/
def print_hex_bytes (bytes : List Int) : Nat → Nat → Option (List Char)
  | _, 0 => some []
  | i, n + 1 =>
    match bytes[i]? with
    | none => none
    | some b =>
      (print_hex_bytes bytes (i + 1) n).bind fun rest =>
        some (printf_02x (b % 256).toNat ++ [' '] ++ rest)

/-- The text of the byte column: each byte as two digits and a space. -/
def hex_column (bytes : List Int) : List Char :=
  bytes.flatMap fun b => printf_02x (b % 256).toNat ++ [' ']

/-! ## The disassembler and `id_print` -/

/-- What one call of `print_insn_i386` does as far as the program can see: the formatted
texts it hands to the `fprintf` callback, in order, and its return value. -/
structure DisResult where
  calls : List Fmt
  ret : Int

/-- The disassembler of libopcodes as the program sets it up (lines 241-244): it reads
the instruction from `dis.buffer`, which is the byte view of `ins.data`, and is told its
size in `dis.buffer_length`; `bounded` is its contract never to consume more than that. -/
structure Disassembler where
  print_insn_i386 : List Int → DisResult
  bounded : ∀ w : List Int, (print_insn_i386 w).ret ≤ w.length

/-- The function `id_print` (lines 122-160) on the global `buffer`: the new buffer and the
lines written to standard output (none or one); `none` after an out-of-bounds access. -/
def id_print (cfg : Config) (ins : id_instr) (dis : Disassembler) (buffer : id_buffer) :
    Option (id_buffer × List (List Char)) :=
  let bytes := instr_bytes cfg ins
  (id_print_reset buffer).bind fun b0 =>
    let r := dis.print_insn_i386 bytes
    (id_buffer_printfs b0 r.calls).bind fun b1 =>
      let s := r.ret
      if s ≤ 0 then
        some (b1, [])
      else
        (print_hex_bytes bytes 0 s.toNat).bind fun hex =>
          let s7 := if s > 7 then 7 else s
          some (b1, [[' '] ++ printf_lx cfg ins.ip ++ [':', TAB] ++ hex ++
            printf_s (PAD_FORMAT.drop (s7.toNat * 3)) (c_str b1.data)])

/-! ## The operating system as seen by the tracer -/

/-- The macro `WIFEXITED` of `sys/wait.h`: `((status) & 0x7f) == 0`. -/
def WIFEXITED (status : Nat) : Bool :=
  status % 128 == 0

/-- The macro `W_EXITCODE (ret, sig)` of `sys/wait.h`, the status of a child that called
`exit (ret)`: `(ret) << 8 | (sig)` with `sig = 0`. -/
def W_EXITCODE (ret : Nat) : Nat :=
  (ret % 256) * 256

/-- The macro `W_STOPCODE (sig)` of `sys/wait.h`, the status of a stopped child:
`(sig) << 8 | 0x7f`. -/
def W_STOPCODE (sig : Nat) : Nat :=
  (sig % 256) * 256 + 127

/-- The signal number of `SIGTRAP`. -/
def SIGTRAP : Nat := 5

/-- What the `ptrace` requests of one loop iteration find while the child is stopped.
`singlestep` is the return value of the next `PTRACE_SINGLESTEP` request, `getregs` the
program counter (`rip` or `eip`) that `PTRACE_GETREGS` stores, or `none` when the request
fails and leaves `regs` alone, `mem` the memory of the child by byte address, and
`peek_fails` tells at which addresses `PTRACE_PEEKDATA` fails. -/
structure Child where
  singlestep : Int
  getregs : Option Nat
  mem : Nat → Nat
  peek_fails : Nat → Bool

/-- The outcome of one call of `wait` or `waitpid`: a failure with its `errno`, or a status
together with the state the child is in. -/
inductive WaitRes where
  | fail (errno : Nat)
  | ok (status : Nat) (child : Child)

/-- Is this outcome a failure with `errno == EINTR`. -/
def WaitRes.interrupted : WaitRes → Bool
  | WaitRes.fail errno => errno == EINTR
  | WaitRes.ok _ _ => false

/-- Is this outcome one that ends a wait loop: anything but an interruption. -/
def WaitRes.decisive (w : WaitRes) : Bool :=
  !w.interrupted

/-- The unsigned value of the little endian byte sequence `bs`. -/
def le_word : List Nat → Nat
  | [] => 0
  | b :: bs => b + 256 * le_word bs

/-- The call `ptrace (PTRACE_PEEKDATA, pid, addr, 0)`: the word at `addr`, that is the
little endian value of `sizeof (long)` consecutive bytes (addresses wrap at the end of the
address space), or -1 when the request fails. -/
def ptrace_peekdata (cfg : Config) (c : Child) (addr : Nat) : Int :=
  if c.peek_fails addr then -1
  else to_long cfg (le_word ((List.range cfg.sizeof_long).map fun j =>
    c.mem ((addr + j) % 2 ^ LONG_BIT cfg) % 256))

/-- Lines 271-281: `ins.ip` is the program counter, `ins.data[k]` is the word read at
`ins.ip + k * sizeof (long)`, an `unsigned long` sum. -/
def snapshot (cfg : Config) (c : Child) (pc : Nat) : id_instr :=
  { ip := to_long cfg pc,
    data := (List.range (WORDS_PER_INSTR cfg)).map fun k =>
      ptrace_peekdata cfg c (to_ulong cfg (to_long cfg pc + ((k * cfg.sizeof_long : Nat) : Int))) }

/-- How a function or the process ends. -/
inductive Outcome where
  /-- The function returned to its caller. -/
  | returned
  /-- The process ended through `err` or `errx` with this exit status and diagnostic. -/
  | fatal (status : Nat) (diag : String)
  /-- The process is blocked in `wait` or `waitpid`: no further event was supplied. -/
  | blocked
  /-- The process made an out-of-bounds access. -/
  | undefined
  /-- The function `main` returned this exit status. -/
  | exit (status : Nat)
  /-- The process image was replaced by `execvp` with these arguments. -/
  | exec (argv : List String)
deriving DecidableEq

/-- What the tracer did: the number of `PTRACE_SINGLESTEP` requests, the lines written to
standard output, and how it ended. -/
structure Trace where
  steps : Nat
  out : List (List Char)
  outcome : Outcome
deriving DecidableEq

/-- The loop of lines 255-284 from the point where a `PTRACE_SINGLESTEP` request has just
been issued and control is at `while (wait (&status) < 0)`; `regs` is the program counter
held in the local `regs`. The count `steps` is that of the requests issued from here on. -/
def stepping (cfg : Config) (dis : Disassembler) : id_buffer → Nat → List WaitRes → Trace
  | _, _, [] => { steps := 0, out := [], outcome := Outcome.blocked }
  | buffer, regs, WaitRes.fail errno :: rest =>
    if errno = EINTR then
      stepping cfg dis buffer regs rest
    else
      { steps := 0, out := [], outcome := Outcome.fatal EXIT_FAILURE "waitpid" }
  | buffer, regs, WaitRes.ok status child :: rest =>
    if WIFEXITED status then
      { steps := 0, out := [], outcome := Outcome.returned }
    else
      -- `ptrace (PTRACE_GETREGS, pid, 0, &regs)`: a failing request leaves `regs` as it was
      let regs1 := child.getregs.getD regs
      match id_print cfg (snapshot cfg child regs1) dis buffer with
      | none => { steps := 0, out := [], outcome := Outcome.undefined }
      | some (buffer1, lines) =>
        -- next iteration: `ptrace (PTRACE_SINGLESTEP, pid, 0, 0)`, result discarded
        let _discarded := child.singlestep
        let r := stepping cfg dis buffer1 regs1 rest
        { steps := r.steps + 1, out := lines ++ r.out, outcome := r.outcome }

/-- The loop `for (;;)` of lines 255-284, entered with the child in the stop `child0`. -/
def id_main_loop (cfg : Config) (dis : Disassembler) (buffer : id_buffer) (regs : Nat)
    (child0 : Child) (waits : List WaitRes) : Trace :=
  -- `ptrace (PTRACE_SINGLESTEP, pid, 0, 0)`, result discarded
  let _discarded := child0.singlestep
  let r := stepping cfg dis buffer regs waits
  { steps := r.steps + 1, out := r.out, outcome := r.outcome }

/-- The function `id_main_parent` (lines 222-285): the wait for the first stop of the
child, whose status is not looked at, then the loop. `regs` is the indeterminate initial
content of the local `regs`. -/
def id_main_parent (cfg : Config) (dis : Disassembler) (buffer : id_buffer) (regs : Nat) :
    List WaitRes → Trace
  | [] => { steps := 0, out := [], outcome := Outcome.blocked }
  | WaitRes.fail errno :: rest =>
    if errno ≠ EINTR then
      { steps := 0, out := [], outcome := Outcome.fatal EXIT_FAILURE "waitpid" }
    else
      id_main_parent cfg dis buffer regs rest
  | WaitRes.ok _ child0 :: rest => id_main_loop cfg dis buffer regs child0 rest

/-! ## Start up: `id_init`, `id_fork`, `id_main_child`, `main` -/

/-- The C `enum id_role`. -/
inductive id_role where
  | ID_PARENT
  | ID_CHILD
deriving DecidableEq

/-- The C `struct id_args`; `argv` is the argument vector without its final null pointer. -/
structure id_args where
  argc : Int
  argv : List String
deriving DecidableEq

/-- The C `struct id_pids`. -/
structure id_pids where
  child : Int
  parent : Int
deriving DecidableEq

/-- The global variables of the program (lines 79-82). -/
structure Globals where
  role : id_role
  args : id_args
  buffer : id_buffer
  pids : id_pids
deriving DecidableEq

/-- The globals before `main` runs: static storage is zero filled. -/
def static_globals : Globals :=
  { role := id_role.ID_PARENT, args := { argc := 0, argv := [] }, buffer := static_buffer,
    pids := { child := 0, parent := 0 } }

/-- The answers of the operating system to one run of the program. -/
structure OS where
  getpid : Int
  fork : Int
  execvp_fails : Bool
  regs : Nat
  waits : List WaitRes

/-- The function `id_init` (lines 162-181); an error is the message `errx` prints before it
ends the process with `EXIT_FAILURE`. A null `argv[0]` prints as `(null)`. -/
def id_init (g : Globals) (argc : Int) (argv : List String) (getpid : Int) :
    Except String Globals :=
  if argc < 2 then
    Except.error ("Usage: " ++ argv.headD "(null)" ++ " COMMAND [ARGS...]")
  else
    Except.ok { g with
      args := { argc := argc - 1, argv := argv.drop 1 },
      pids := { parent := getpid, child := 0 },
      buffer := { g.buffer with cap := DATA_SIZE, len := 0 } }

/-- The function `id_fork` (lines 183-199); an error is the message of `err`. -/
def id_fork (g : Globals) (os : OS) : Except String Globals :=
  let pid := os.fork
  if pid < 0 then
    Except.error "fork"
  else if pid > 0 then
    Except.ok { g with role := id_role.ID_PARENT, pids := { g.pids with child := pid } }
  else
    Except.ok { g with role := id_role.ID_CHILD, pids := { g.pids with child := os.getpid } }

/-- The function `id_main_child` (lines 201-220). -/
def id_main_child (g : Globals) (os : OS) : Outcome :=
  if os.execvp_fails then Outcome.fatal EXIT_FAILURE "execvp" else Outcome.exec g.args.argv

/-- What one process did: the number of calls of `fork`, and the trace. -/
structure Proc where
  forks : Nat
  trace : Trace
deriving DecidableEq

/-- The function `main` (lines 287-302). -/
def main (cfg : Config) (dis : Disassembler) (argc : Int) (argv : List String) (os : OS) :
    Proc :=
  match id_init static_globals argc argv os.getpid with
  | Except.error msg =>
    { forks := 0, trace := { steps := 0, out := [], outcome := Outcome.fatal EXIT_FAILURE msg } }
  | Except.ok g =>
    match id_fork g os with
    | Except.error msg =>
      { forks := 1,
        trace := { steps := 0, out := [], outcome := Outcome.fatal EXIT_FAILURE msg } }
    | Except.ok g1 =>
      match g1.role with
      | id_role.ID_PARENT =>
        let r := id_main_parent cfg dis g1.buffer os.regs os.waits
        { forks := 1,
          trace := { r with outcome :=
            match r.outcome with
            | Outcome.returned => Outcome.exit EXIT_SUCCESS
            | o => o } }
      | id_role.ID_CHILD =>
        { forks := 1, trace := { steps := 0, out := [], outcome := id_main_child g1 os } }

/-! ## Auxiliary notions for the statements about the loop -/

/-- The control flow of the loop as a function of the wait outcomes alone: the number of
further `PTRACE_SINGLESTEP` requests, and how the loop ends. -/
def control : List WaitRes → Nat × Outcome
  | [] => (0, Outcome.blocked)
  | WaitRes.fail errno :: rest =>
    if errno = EINTR then control rest else (0, Outcome.fatal EXIT_FAILURE "waitpid")
  | WaitRes.ok status _ :: rest =>
    if WIFEXITED status then (0, Outcome.returned) else ((control rest).1 + 1, (control rest).2)

/-- The control flow of `id_main_parent` as a function of the wait outcomes alone: the
number of `PTRACE_SINGLESTEP` requests, and how the function ends. -/
def parent_control : List WaitRes → Nat × Outcome
  | [] => (0, Outcome.blocked)
  | WaitRes.fail errno :: rest =>
    if errno = EINTR then parent_control rest else (0, Outcome.fatal EXIT_FAILURE "waitpid")
  | WaitRes.ok _ _ :: rest => ((control rest).1 + 1, (control rest).2)

/-- The same wait outcome with every `ptrace` request of the iteration failing: the single
step request returns -1, the registers cannot be read, no word can be read. -/
def ptrace_all_fail : WaitRes → WaitRes
  | WaitRes.fail errno => WaitRes.fail errno
  | WaitRes.ok status child =>
    WaitRes.ok status { child with singlestep := -1, getregs := none, peek_fails := fun _ => true }

/-- The wait outcomes that keep the loop going: an interrupted wait, or a status that does
not report an exit. -/
def WaitRes.keeps_going : WaitRes → Bool
  | WaitRes.fail errno => errno == EINTR
  | WaitRes.ok status _ => !WIFEXITED status

/-- The number of statuses in a list of wait outcomes. -/
def count_ok : List WaitRes → Nat
  | [] => 0
  | WaitRes.fail _ :: rest => count_ok rest
  | WaitRes.ok _ _ :: rest => count_ok rest + 1

/-! ## Concrete inputs -/

/-- A toy disassembler: every window that holds a byte decodes as a one byte `nop`. -/
def toy_dis : Disassembler :=
  { print_insn_i386 := fun w =>
      if w.length = 0 then { calls := [], ret := -1 }
      else { calls := [Fmt.text ['n', 'o', 'p']], ret := 1 },
    bounded := by
      intro w
      by_cases h : w.length = 0
      · simp [h]
      · simp only [h, if_false]
        have : 0 < w.length := Nat.pos_of_ne_zero h
        omega }

/-- A disassembler that decodes nothing: it prints `(bad)` and returns -1. -/
def deaf_dis : Disassembler :=
  { print_insn_i386 := fun _ => { calls := [Fmt.text ['(', 'b', 'a', 'd', ')']], ret := -1 },
    bounded := by
      intro w
      have : (0 : Int) ≤ (w.length : Int) := Int.ofNat_nonneg _
      simp only []
      omega }

/-- A disassembler that decodes a ten byte instruction from a window that holds ten. -/
def wide_dis : Disassembler :=
  { print_insn_i386 := fun w =>
      if w.length < 10 then { calls := [], ret := -1 }
      else { calls := [Fmt.text ['m', 'o', 'v'], Fmt.text ['a', 'b', 's']], ret := 10 },
    bounded := by
      intro w
      by_cases h : w.length < 10
      · simp only [h, if_true]
        omega
      · simp only [h, if_false]
        omega }

/-- A disassembler for the example in the comment above `id_print`: a window that holds
three bytes decodes as the three byte instruction `mov    %edi,%r8d`, printed in three
pieces. -/
def mov_dis : Disassembler :=
  { print_insn_i386 := fun w =>
      if w.length < 3 then { calls := [], ret := -1 }
      else { calls := [Fmt.text "mov".toList, Fmt.text "    ".toList,
        Fmt.text "%edi,%r8d".toList], ret := 3 },
    bounded := by
      intro w
      by_cases h : w.length < 3
      · simp only [h, if_true]
        omega
      · simp only [h, if_false]
        omega }

/-- The child of the example in the comment above `id_print`: stopped at 0x7f09959621f0,
where the memory holds the bytes 41 89 f8. -/
def mov_child : Child :=
  { singlestep := 0, getregs := some 0x7f09959621f0,
    mem := fun a =>
      if a = 0x7f09959621f0 then 65
      else if a = 0x7f09959621f1 then 137
      else if a = 0x7f09959621f2 then 248
      else 0,
    peek_fails := fun _ => false }

/-- A stopped child at address 0x401000 in a memory full of 0x90 bytes. -/
def nop_child : Child :=
  { singlestep := 0, getregs := some 4198400, mem := fun _ => 144, peek_fails := fun _ => false }

/-- A child that counts: the memory byte at address `a` is `a % 256`. -/
def ramp_child : Child :=
  { singlestep := 0, getregs := some 4198400, mem := fun a => a % 256,
    peek_fails := fun _ => false }

/-- A child on which every `ptrace` request fails. -/
def lost_child : Child :=
  { singlestep := -1, getregs := none, mem := fun _ => 144, peek_fails := fun _ => true }

/-- The line the specification describes for `id_print`: the address, a colon, the byte
column with its padding, a tab, the text and a line feed. -/
def claimed_line (cfg : Config) (ip : Int) (bytes : List Int) (s : Nat) (t : List Char) :
    List Char :=
  printf_lx cfg ip ++ [':'] ++ hex_column (bytes.take s) ++
    List.replicate (21 - 3 * min s 7) ' ' ++ [TAB] ++ t ++ [LF]

/-! ## The line buffer: lemmas -/

theorem write_at_eq_some (data : List Char) (off : Nat) (src : List Char)
    (h : off + src.length ≤ data.length) :
    write_at data off src = some (data.take off ++ src ++ data.drop (off + src.length)) := by
  simp [write_at, h]

theorem write_at_length {data d : List Char} {off : Nat} {src : List Char}
    (h : write_at data off src = some d) : d.length = data.length := by
  unfold write_at at h
  split at h
  · injection h with h
    subst h
    simp
    omega
  · cases h

theorem write_at_mem {data d : List Char} {off : Nat} {src : List Char} {c : Char}
    (h : write_at data off src = some d) (hc : c ∈ src) : c ∈ d := by
  unfold write_at at h
  split at h
  · injection h with h
    subst h
    simp [hc]
  · cases h

theorem c_str_length_lt {data : List Char} (h : NUL ∈ data) :
    (c_str data).length < data.length := by
  induction data with
  | nil => cases h
  | cons c cs ih =>
    by_cases hc : c = NUL
    · simp [c_str, List.takeWhile_cons, hc]
    · have hm : NUL ∈ cs := by
        rcases List.mem_cons.mp h with h1 | h1
        · exact absurd h1.symm hc
        · exact h1
      have h2 := ih hm
      have h3 : (c != NUL) = true := by simp [hc]
      simp only [c_str, List.takeWhile_cons, h3, if_true, List.length_cons] at h2 ⊢
      omega

theorem id_print_reset_ok {b : id_buffer} (hb : buffer_ok b) :
    ∃ b1, id_print_reset b = some b1 ∧ buffer_ok b1 ∧ b1.len = 0 := by
  obtain ⟨hcap, hlen, _⟩ := hb
  have h1 : 0 + [NUL].length ≤ b.data.length := by simp [hlen, DATA_SIZE]
  have hw := write_at_eq_some b.data 0 [NUL] h1
  refine ⟨_, by simp [id_print_reset, hw]; rfl, ?_, rfl⟩
  refine ⟨hcap, ?_, ?_⟩
  · simp; rw [hlen]; simp [DATA_SIZE]
  · simp

theorem id_buffer_printf_ok {b : id_buffer} (hb : buffer_ok b) (f : Fmt) :
    ∃ r, id_buffer_printf b f = some r ∧ buffer_ok r.1 := by
  obtain ⟨hcap, hlen, hnul⟩ := hb
  unfold id_buffer_printf
  split
  · exact ⟨_, rfl, hcap, hlen, hnul⟩
  · rename_i hlt
    have hlt : b.len < DATA_SIZE := by omega
    cases f with
    | error junk =>
      have h0 : b.len + (junk.take (b.cap - b.len)).length ≤ b.data.length := by
        rw [List.length_take, hlen]
        omega
      have hw0 := write_at_eq_some b.data b.len _ h0
      have hl0 := write_at_length hw0
      have h1 : 0 + [NUL].length ≤ (b.data.take b.len ++ junk.take (b.cap - b.len) ++
          b.data.drop (b.len + (junk.take (b.cap - b.len)).length)).length := by
        rw [hl0, hlen]; simp [DATA_SIZE]
      have hw := write_at_eq_some _ 0 [NUL] h1
      simp only [hw0, hw, Option.some_bind]
      refine ⟨_, rfl, hcap, ?_, ?_⟩
      · have := write_at_length hw
        simp only [] at this ⊢
        rw [this, hl0, hlen]
      · exact write_at_mem hw (by simp)
    | text t =>
      have hn : ¬ (b.cap - b.len = 0) := by omega
      have h1 : b.len + (t.take (b.cap - b.len - 1) ++ [NUL]).length ≤ b.data.length := by
        simp [hlen]
        omega
      have hw := write_at_eq_some b.data b.len _ h1
      simp only [vsnprintf, hn, if_false, hw, Option.some_bind]
      have hd1 : (b.data.take b.len ++ (t.take (b.cap - b.len - 1) ++ [NUL]) ++
          b.data.drop (b.len + (t.take (b.cap - b.len - 1) ++ [NUL]).length)).length
          = DATA_SIZE := by
        rw [← hlen]; exact write_at_length hw
      split
      · have h2 : (b.cap - 4) + (MARKER ++ [NUL]).length ≤ (b.data.take b.len ++
            (t.take (b.cap - b.len - 1) ++ [NUL]) ++
            b.data.drop (b.len + (t.take (b.cap - b.len - 1) ++ [NUL]).length)).length := by
          rw [hd1, hcap]; simp [MARKER, DATA_SIZE]
        have hw2 := write_at_eq_some _ (b.cap - 4) (MARKER ++ [NUL]) h2
        simp only [strcpy, hw2, Option.some_bind]
        refine ⟨_, rfl, hcap, ?_, ?_⟩
        · have := write_at_length hw2
          simp only [] at this ⊢
          rw [this, hd1]
        · exact write_at_mem hw2 (by simp)
      · simp only [Option.some_bind]
        refine ⟨_, rfl, hcap, hd1, ?_⟩
        exact write_at_mem hw (by simp)

theorem run_ops_ok (ops : List BufOp) : ∀ {b : id_buffer}, buffer_ok b →
    ∃ b1, run_ops b ops = some b1 ∧ buffer_ok b1 := by
  induction ops with
  | nil => intro b hb; exact ⟨b, rfl, hb⟩
  | cons op ops ih =>
    intro b hb
    cases op with
    | reset =>
      obtain ⟨b1, h1, hb1, _⟩ := id_print_reset_ok hb
      obtain ⟨b2, h2, hb2⟩ := ih hb1
      exact ⟨b2, by simp [run_ops, h1, h2], hb2⟩
    | printf f =>
      obtain ⟨r, h1, hb1⟩ := id_buffer_printf_ok hb f
      obtain ⟨b2, h2, hb2⟩ := ih hb1
      exact ⟨b2, by simp [run_ops, h1, h2], hb2⟩

theorem id_init_buffer_ok : buffer_ok id_init_buffer := by
  refine ⟨rfl, by simp [id_init_buffer, static_buffer], ?_⟩
  simp [id_init_buffer, static_buffer, DATA_SIZE]


theorem id_buffer_printf_text {b : id_buffer} (hcap : b.cap = DATA_SIZE)
    (hlen : b.data.length = DATA_SIZE) (hlt : b.len < b.cap) (t : List Char) :
    id_buffer_printf b (Fmt.text t) =
      some ({ b with len := b.len + t.length,
                     data := if b.len + t.length > b.cap then stored_d2 b t else stored_d1 b t },
            (t.length : Int)) := by
  have hn : ¬ (b.cap - b.len = 0) := by omega
  have hge : ¬ (b.len ≥ b.cap) := by omega
  have h1 : b.len + (t.take (b.cap - b.len - 1) ++ [NUL]).length ≤ b.data.length := by
    simp [hlen]
    omega
  have hw := write_at_eq_some b.data b.len _ h1
  have hd1 : (stored_d1 b t).length = DATA_SIZE := by
    rw [← hlen]; exact write_at_length hw
  unfold id_buffer_printf
  simp only [hge, if_false, vsnprintf, hn, hw, Option.some_bind]
  split
  · have h2 : (b.cap - 4) + (MARKER ++ [NUL]).length ≤ (stored_d1 b t).length := by
      rw [hd1, hcap]; simp [MARKER, DATA_SIZE]
    have hw2 := write_at_eq_some _ (b.cap - 4) (MARKER ++ [NUL]) h2
    simp only [strcpy]
    rw [show b.data.take b.len ++ (t.take (b.cap - b.len - 1) ++ [NUL]) ++
      b.data.drop (b.len + (t.take (b.cap - b.len - 1) ++ [NUL]).length) = stored_d1 b t from rfl]
    rw [hw2]
    rfl
  · rfl

theorem c_str_append_nul {p : List Char} (hp : ∀ c ∈ p, c ≠ NUL) (rest : List Char) :
    c_str (p ++ NUL :: rest) = p := by
  induction p with
  | nil => simp [c_str, List.takeWhile_cons]
  | cons c cs ih =>
    have h3 : (c != NUL) = true := by simp [hp c (List.mem_cons_self c cs)]
    have h4 := ih (fun x hx => hp x (List.mem_cons_of_mem c hx))
    simp only [c_str, List.cons_append, List.takeWhile_cons, h3, if_true] at h4 ⊢
    rw [h4]

theorem stored_d2_c_str {b : id_buffer} (hcap : b.cap = DATA_SIZE)
    (hlen : b.data.length = DATA_SIZE) (hlt : b.len < b.cap)
    (hpre : ∀ c ∈ b.data.take b.len, c ≠ NUL) {t : List Char} (ht : NUL ∉ t)
    (hov : b.len + t.length > b.cap) :
    c_str (stored_d2 b t) = (b.data.take b.len ++ t.take (b.cap - b.len - 1)).take 124 ++ MARKER := by
  have hpl : (b.data.take b.len).length = b.len := by
    rw [List.length_take, hlen]; omega
  have hql : (t.take (b.cap - b.len - 1)).length = b.cap - b.len - 1 := by
    rw [List.length_take]; omega
  have e1 : stored_d1 b t = (b.data.take b.len ++ t.take (b.cap - b.len - 1)) ++
      (NUL :: b.data.drop (b.len + (t.take (b.cap - b.len - 1) ++ [NUL]).length)) := by
    simp [stored_d1]
  have hpq : (b.data.take b.len ++ t.take (b.cap - b.len - 1)).length = 127 := by
    have hcap2 : b.cap = 128 := hcap
    have hlen2 : b.data.length = 128 := hlen
    simp only [List.length_append, List.length_take]; omega
  have e2 : (stored_d1 b t).take (b.cap - 4) =
      (b.data.take b.len ++ t.take (b.cap - b.len - 1)).take 124 := by
    have h124 : b.cap - 4 = 124 := by rw [hcap]; rfl
    rw [e1, h124, List.take_append_of_le_length (by rw [hpq]; decide)]
  have hnn : ∀ c ∈ (b.data.take b.len ++ t.take (b.cap - b.len - 1)).take 124 ++ MARKER,
      c ≠ NUL := by
    intro c hc
    rcases List.mem_append.mp hc with h | h
    · rcases List.mem_append.mp (List.mem_of_mem_take h) with h | h
      · exact hpre c h
      · intro hcn
        exact ht (hcn ▸ List.mem_of_mem_take h)
    · have hdot : c = '.' := by simpa [MARKER] using h
      rw [hdot]; decide
  unfold stored_d2
  rw [e2]
  have := c_str_append_nul hnn ((stored_d1 b t).drop (b.cap - 4 + (MARKER ++ [NUL]).length))
  simpa using this

theorem id_buffer_printf_marker {b : id_buffer} (hb : marker_inv b) {f : Fmt}
    (hf : f.nul_free) {r : id_buffer × Int} (hr : id_buffer_printf b f = some r) :
    marker_inv r.1 := by
  obtain ⟨hcap, hlen, hpre, hpost⟩ := hb
  by_cases hge : b.len ≥ b.cap
  · have : id_buffer_printf b f = some (b, -1) := by simp [id_buffer_printf, hge]
    rw [this] at hr
    injection hr with hr
    subst hr
    exact ⟨hcap, hlen, hpre, hpost⟩
  · have hlt : b.len < b.cap := by omega
    cases f with
    | error junk =>
      have h0 : b.len + (junk.take (b.cap - b.len)).length ≤ b.data.length := by
        rw [List.length_take, hlen]
        omega
      have hw0 := write_at_eq_some b.data b.len _ h0
      have hl0 := write_at_length hw0
      have h1 : 0 + [NUL].length ≤ (b.data.take b.len ++ junk.take (b.cap - b.len) ++
          b.data.drop (b.len + (junk.take (b.cap - b.len)).length)).length := by
        rw [hl0, hlen]; simp [DATA_SIZE]
      have hw := write_at_eq_some _ 0 [NUL] h1
      simp only [id_buffer_printf, hge, if_false, hw0, hw, Option.some_bind] at hr
      injection hr with hr
      subst hr
      refine ⟨hcap, ?_, ?_, ?_⟩
      · have := write_at_length hw
        simp only [] at this ⊢
        rw [this, hl0, hlen]
      · intro _ c hc; simp at hc
      · intro h; simp only [] at h; omega
    | text t =>
      rw [id_buffer_printf_text hcap hlen hlt t] at hr
      injection hr with hr
      subst hr
      have hpl : (b.data.take b.len).length = b.len := by
        rw [List.length_take, hlen]; omega
      have h1 : b.len + (t.take (b.cap - b.len - 1) ++ [NUL]).length ≤ b.data.length := by
        simp [hlen]
        omega
      have hd1 : (stored_d1 b t).length = DATA_SIZE := by
        rw [← hlen]; exact write_at_length (write_at_eq_some b.data b.len _ h1)
      by_cases hov : b.len + t.length > b.cap
      · have hc := stored_d2_c_str hcap hlen hlt (hpre hlt) hf hov
        have h2 : (b.cap - 4) + (MARKER ++ [NUL]).length ≤ (stored_d1 b t).length := by
          rw [hd1, hcap]; simp [MARKER, DATA_SIZE]
        have hd2 : (stored_d2 b t).length = DATA_SIZE := by
          rw [← hd1]; exact write_at_length (write_at_eq_some _ (b.cap - 4) _ h2)
        have hql : (t.take (b.cap - b.len - 1)).length = b.cap - b.len - 1 := by
          rw [List.length_take]; omega
        simp only [hov, if_true]
        refine ⟨hcap, hd2, ?_, ?_⟩
        · intro h; simp only [] at h; omega
        · intro _
          simp only []
          rw [hc]
          refine ⟨List.suffix_append _ _, ?_⟩
          rw [List.length_append, List.length_take, List.length_append, hpl, hql, hcap]
          simp [MARKER, DATA_SIZE]
          omega
      · simp only [hov, if_false]
        refine ⟨hcap, hd1, ?_, ?_⟩
        · intro h c hc
          simp only [] at h hc
          have hq : t.take (b.cap - b.len - 1) = t := by
            apply List.take_of_length_le; omega
          have e1 : stored_d1 b t = (b.data.take b.len ++ t) ++
              (NUL :: b.data.drop (b.len + (t ++ [NUL]).length)) := by
            simp [stored_d1, hq]
          rw [e1, List.take_append_of_le_length (by rw [List.length_append, hpl])] at hc
          have hc := List.mem_of_mem_take hc
          rcases List.mem_append.mp hc with h | h
          · exact hpre hlt c h
          · intro hcn
            exact hf (hcn ▸ h)
        · intro h; simp only [] at h; omega

theorem id_buffer_printfs_marker (fs : List Fmt) : ∀ {b b1 : id_buffer}, marker_inv b →
    (∀ f ∈ fs, f.nul_free) → id_buffer_printfs b fs = some b1 → marker_inv b1 := by
  induction fs with
  | nil =>
    intro b b1 hb _ h
    simp only [id_buffer_printfs] at h
    injection h with h
    exact h ▸ hb
  | cons f fs ih =>
    intro b b1 hb hfs h
    simp only [id_buffer_printfs] at h
    cases hr : id_buffer_printf b f with
    | none => rw [hr] at h; cases h
    | some r =>
      rw [hr] at h
      exact ih (id_buffer_printf_marker hb (hfs f (List.mem_cons_self f fs)) hr)
        (fun g hg => hfs g (List.mem_cons_of_mem f hg)) h

/-- The case the marker misses: a text that brings the accumulated length to exactly the
capacity loses its last character to the terminator and gets no marker, because the test
of line 99 is `buffer.len + ret > buffer.cap`; what is appended later is dropped. -/
theorem exact_fill_gets_no_marker :
    ((id_print_reset id_init_buffer).bind fun b =>
        id_buffer_printfs b [Fmt.text (List.replicate 128 'a'), Fmt.text ['b']]).map
      (fun b => (b.len, c_str b.data)) = some (128, List.replicate 127 'a') := by
  set_option maxRecDepth 100000 in decide

/-! ## `id_print`: lemmas -/

set_option maxRecDepth 100000 in
theorem printf_02x_length : ∀ v : Nat, v < 256 → (printf_02x v).length = 2 := by
  decide

theorem emod_256_toNat_lt (b : Int) : (b % 256).toNat < 256 := by
  have h1 : 0 ≤ b % 256 := Int.emod_nonneg b (by decide)
  have h2 : b % 256 < 256 := Int.emod_lt_of_pos b (by decide)
  omega

theorem hex_column_length (bytes : List Int) : (hex_column bytes).length = 3 * bytes.length := by
  induction bytes with
  | nil => rfl
  | cons b bs ih =>
    have h := printf_02x_length _ (emod_256_toNat_lt b)
    simp only [hex_column, List.flatMap_cons, List.length_append, List.length_cons,
      List.length_nil] at ih ⊢
    rw [ih, h]
    omega

theorem print_hex_bytes_eq (bytes : List Int) : ∀ (n i : Nat), i + n ≤ bytes.length →
    print_hex_bytes bytes i n = some (hex_column ((bytes.drop i).take n)) := by
  intro n
  induction n with
  | zero => intro i _; simp [print_hex_bytes, hex_column]
  | succ n ih =>
    intro i h
    have hi : i < bytes.length := by omega
    have h1 := ih (i + 1) (by omega)
    have h2 : bytes.drop i = bytes[i] :: bytes.drop (i + 1) := List.drop_eq_getElem_cons hi
    simp only [print_hex_bytes, List.getElem?_eq_getElem hi, h1, Option.some_bind, h2,
      List.take_succ_cons, hex_column, List.flatMap_cons, List.append_assoc]

theorem printf_s_pad : ∀ k : Nat, k ≤ 7 → ∀ arg : List Char,
    printf_s (PAD_FORMAT.drop (k * 3)) arg =
      List.replicate (21 - 3 * k) ' ' ++ [TAB] ++ arg ++ [LF] := by
  intro k hk arg
  interval_cases k <;> rfl

theorem id_buffer_printfs_ok (fs : List Fmt) : ∀ {b : id_buffer}, buffer_ok b →
    ∃ b1, id_buffer_printfs b fs = some b1 ∧ buffer_ok b1 := by
  induction fs with
  | nil => intro b hb; exact ⟨b, rfl, hb⟩
  | cons f fs ih =>
    intro b hb
    obtain ⟨r, h1, hb1⟩ := id_buffer_printf_ok hb f
    obtain ⟨b2, h2, hb2⟩ := ih hb1
    exact ⟨b2, by simp [id_buffer_printfs, h1, h2], hb2⟩

/-- What `id_print` does on a well-formed buffer, in closed form. -/
theorem id_print_eq (cfg : Config) (ins : id_instr) (dis : Disassembler) {b : id_buffer}
    (hb : buffer_ok b) :
    ∃ b0 b1, id_print_reset b = some b0 ∧ b0.len = 0 ∧
      id_buffer_printfs b0 (dis.print_insn_i386 (instr_bytes cfg ins)).calls = some b1 ∧
      buffer_ok b1 ∧
      id_print cfg ins dis b = some (b1,
        if (dis.print_insn_i386 (instr_bytes cfg ins)).ret ≤ 0 then []
        else [[' '] ++ printf_lx cfg ins.ip ++ [':', TAB] ++
          hex_column ((instr_bytes cfg ins).take
            (dis.print_insn_i386 (instr_bytes cfg ins)).ret.toNat) ++
          List.replicate
            (21 - 3 * min (dis.print_insn_i386 (instr_bytes cfg ins)).ret.toNat 7) ' ' ++
          [TAB] ++ c_str b1.data ++ [LF]]) := by
  obtain ⟨b0, h0, hb0, hl0⟩ := id_print_reset_ok hb
  obtain ⟨b1, h1, hb1⟩ := id_buffer_printfs_ok
    (dis.print_insn_i386 (instr_bytes cfg ins)).calls hb0
  refine ⟨b0, b1, h0, hl0, h1, hb1, ?_⟩
  have hbound := dis.bounded (instr_bytes cfg ins)
  generalize hr : dis.print_insn_i386 (instr_bytes cfg ins) = r at h1 hbound ⊢
  simp only [id_print, h0, Option.some_bind, hr, h1]
  by_cases hs : r.ret ≤ 0
  · simp only [hs, if_true]
  · simp only [hs, if_false]
    have hn : 0 + r.ret.toNat ≤ (instr_bytes cfg ins).length := by omega
    rw [print_hex_bytes_eq _ _ _ hn]
    have hk : (if r.ret > 7 then (7 : Int) else r.ret).toNat = min r.ret.toNat 7 := by
      split <;> omega
    have hk7 : min r.ret.toNat 7 ≤ 7 := Nat.min_le_right _ _
    simp only [Option.some_bind, hk, printf_s_pad _ hk7, List.drop_zero, Nat.mul_comm 3]
    simp only [List.append_assoc]

/-! ## The memory window: lemmas -/

theorem to_ulong_to_long (cfg : Config) (n : Nat) :
    to_ulong cfg (to_long cfg n) = n % 2 ^ LONG_BIT cfg := by
  have hM : 0 < 2 ^ LONG_BIT cfg := Nat.pow_pos (by decide)
  have hm : n % 2 ^ LONG_BIT cfg < 2 ^ LONG_BIT cfg := Nat.mod_lt _ hM
  have hcast : ((2 ^ LONG_BIT cfg : Nat) : Int) = (2 : Int) ^ LONG_BIT cfg := by push_cast; rfl
  have h0 : (0 : Int) ≤ ((n % 2 ^ LONG_BIT cfg : Nat) : Int) := Int.ofNat_nonneg _
  have h1 : ((n % 2 ^ LONG_BIT cfg : Nat) : Int) < (2 : Int) ^ LONG_BIT cfg := by
    rw [← hcast]; exact_mod_cast hm
  unfold to_ulong to_long
  split
  · rw [Int.emod_eq_of_lt h0 h1, Int.toNat_natCast]
  · have : ((n % 2 ^ LONG_BIT cfg : Nat) : Int) - 2 ^ LONG_BIT cfg =
        ((n % 2 ^ LONG_BIT cfg : Nat) : Int) + (-1) * 2 ^ LONG_BIT cfg := by ring
    rw [this, Int.add_mul_emod_self, Int.emod_eq_of_lt h0 h1, Int.toNat_natCast]

theorem to_long_emod (cfg : Config) (n : Nat) :
    to_long cfg n % 2 ^ LONG_BIT cfg = (n : Int) % 2 ^ LONG_BIT cfg := by
  have hcast : ((2 ^ LONG_BIT cfg : Nat) : Int) = (2 : Int) ^ LONG_BIT cfg := by push_cast; rfl
  unfold to_long
  split
  · rw [Int.natCast_mod, hcast, Int.emod_emod]
  · have : ((n % 2 ^ LONG_BIT cfg : Nat) : Int) - 2 ^ LONG_BIT cfg =
        ((n % 2 ^ LONG_BIT cfg : Nat) : Int) + (-1) * 2 ^ LONG_BIT cfg := by ring
    rw [this, Int.add_mul_emod_self, Int.natCast_mod, hcast, Int.emod_emod]

/-- The address the program passes to `PTRACE_PEEKDATA` for word `k`. -/
theorem peek_address (cfg : Config) (pc x : Nat) :
    to_ulong cfg (to_long cfg pc + (x : Int)) = (pc + x) % 2 ^ LONG_BIT cfg := by
  have hcast : ((2 ^ LONG_BIT cfg : Nat) : Int) = (2 : Int) ^ LONG_BIT cfg := by push_cast; rfl
  unfold to_ulong
  rw [Int.add_emod, to_long_emod, ← Int.add_emod]
  have : ((pc : Int) + (x : Int)) % 2 ^ LONG_BIT cfg =
      (((pc + x) % 2 ^ LONG_BIT cfg : Nat) : Int) := by
    rw [Int.natCast_mod, hcast]; push_cast; rfl
  rw [this, Int.toNat_natCast]

theorem le_word_lt (bs : List Nat) (h : ∀ b ∈ bs, b < 256) : le_word bs < 256 ^ bs.length := by
  induction bs with
  | nil => simp [le_word]
  | cons b bs ih =>
    have hb := h b (List.mem_cons_self b bs)
    have := ih (fun x hx => h x (List.mem_cons_of_mem b hx))
    simp only [le_word, List.length_cons, Nat.pow_succ]
    omega

theorem le_word_byte (bs : List Nat) (h : ∀ b ∈ bs, b < 256) :
    ∀ j : Nat, (hj : j < bs.length) → le_word bs / 256 ^ j % 256 = bs[j] := by
  induction bs with
  | nil => intro j hj; cases hj
  | cons b bs ih =>
    intro j hj
    have hb := h b (List.mem_cons_self b bs)
    cases j with
    | zero =>
      simp only [le_word, pow_zero, Nat.div_one, List.getElem_cons_zero]
      omega
    | succ j =>
      have hj2 : j < bs.length := by simpa using hj
      have := ih (fun x hx => h x (List.mem_cons_of_mem b hx)) j hj2
      simp only [le_word, List.getElem_cons_succ]
      rw [Nat.pow_succ, Nat.mul_comm (256 ^ j) 256, ← Nat.div_div_eq_div_mul]
      have hdiv : (b + 256 * le_word bs) / 256 = le_word bs := by omega
      rw [hdiv, this]

theorem to_char_byte (n : Nat) : (to_char n % 256).toNat = n % 256 := by
  unfold to_char
  split <;> omega

theorem range_flatMap_map {α : Type} (g : Nat → α) (m : Nat) : ∀ n : Nat,
    (List.range n).flatMap (fun k => (List.range m).map fun j => g (k * m + j)) =
      (List.range (n * m)).map g := by
  intro n
  induction n with
  | zero => simp
  | succ n ih =>
    rw [List.range_succ, List.flatMap_append, ih, Nat.succ_mul, List.range_add, List.map_append]
    simp [List.flatMap]

theorem pow_long_bit (cfg : Config) : 2 ^ LONG_BIT cfg = 256 ^ cfg.sizeof_long := by
  unfold LONG_BIT
  rw [Nat.pow_mul]

/-- The bytes of a word that `PTRACE_PEEKDATA` read are the memory bytes at its address. -/
theorem long_bytes_peek (cfg : Config) (c : Child) (addr : Nat)
    (h : c.peek_fails addr = false) :
    (long_bytes cfg (ptrace_peekdata cfg c addr)).map (fun b => (b % 256).toNat) =
      (List.range cfg.sizeof_long).map fun j => c.mem ((addr + j) % 2 ^ LONG_BIT cfg) % 256 := by
  have hL : ∀ b ∈ (List.range cfg.sizeof_long).map
      (fun j => c.mem ((addr + j) % 2 ^ LONG_BIT cfg) % 256), b < 256 := by
    intro b hb
    obtain ⟨j, _, rfl⟩ := List.mem_map.mp hb
    exact Nat.mod_lt _ (by decide)
  have hlen : ((List.range cfg.sizeof_long).map
      (fun j => c.mem ((addr + j) % 2 ^ LONG_BIT cfg) % 256)).length = cfg.sizeof_long := by
    simp
  have hlt := le_word_lt _ hL
  rw [hlen, ← pow_long_bit] at hlt
  simp only [long_bytes, ptrace_peekdata, h, Bool.false_eq_true, if_false, List.map_map]
  apply List.map_congr_left
  intro j hj
  have hj2 : j < cfg.sizeof_long := List.mem_range.mp hj
  simp only [Function.comp]
  rw [to_char_byte, to_ulong_to_long, Nat.mod_eq_of_lt hlt, Nat.mod_mod,
    le_word_byte _ hL j (by rw [hlen]; exact hj2)]
  simp

/-- The window as a whole: byte `i` is the memory byte at `pc + i`. -/
theorem window_bytes (cfg : Config) (c : Child) (h : ∀ a, c.peek_fails a = false) (pc : Nat) :
    (instr_bytes cfg (snapshot cfg c pc)).map (fun b => (b % 256).toNat) =
      (List.range (WORDS_PER_INSTR cfg * cfg.sizeof_long)).map
        fun i => c.mem ((pc + i) % 2 ^ LONG_BIT cfg) % 256 := by
  rw [← range_flatMap_map]
  simp only [instr_bytes, snapshot, List.flatMap_map, List.map_flatMap]
  apply List.flatMap_congr
  intro k _
  rw [long_bytes_peek cfg c _ (h _), peek_address]
  apply List.map_congr_left
  intro j _
  rw [Nat.mod_add_mod, Nat.add_assoc]

theorem long_bytes_length (cfg : Config) (w : Int) :
    (long_bytes cfg w).length = cfg.sizeof_long := by
  simp [long_bytes]

theorem instr_bytes_length (cfg : Config) (ins : id_instr) :
    (instr_bytes cfg ins).length = ins.data.length * cfg.sizeof_long := by
  unfold instr_bytes
  induction ins.data with
  | nil => simp
  | cons w ws ih =>
    rw [List.flatMap_cons, List.length_append, ih, long_bytes_length, List.length_cons]
    ring

/-! ## The tracer loop: lemmas -/

theorem stepping_nil (cfg : Config) (dis : Disassembler) (b : id_buffer) (regs : Nat) :
    stepping cfg dis b regs [] = { steps := 0, out := [], outcome := Outcome.blocked } := by
  simp [stepping]

theorem stepping_eintr (cfg : Config) (dis : Disassembler) (b : id_buffer) (regs : Nat)
    (rest : List WaitRes) :
    stepping cfg dis b regs (WaitRes.fail EINTR :: rest) = stepping cfg dis b regs rest := by
  simp [stepping]

theorem stepping_fail (cfg : Config) (dis : Disassembler) (b : id_buffer) (regs : Nat)
    {errno : Nat} (h : errno ≠ EINTR) (rest : List WaitRes) :
    stepping cfg dis b regs (WaitRes.fail errno :: rest) =
      { steps := 0, out := [], outcome := Outcome.fatal EXIT_FAILURE "waitpid" } := by
  simp [stepping, h]

theorem stepping_exited (cfg : Config) (dis : Disassembler) (b : id_buffer) (regs : Nat)
    {status : Nat} (h : WIFEXITED status = true) (child : Child) (rest : List WaitRes) :
    stepping cfg dis b regs (WaitRes.ok status child :: rest) =
      { steps := 0, out := [], outcome := Outcome.returned } := by
  simp [stepping, h]

/-- One iteration of the loop on a stop that is not an exit. -/
theorem stepping_stopped (cfg : Config) (dis : Disassembler) {b : id_buffer} (hb : buffer_ok b)
    (regs : Nat) {status : Nat} (h : WIFEXITED status = false) (child : Child)
    (rest : List WaitRes) :
    ∃ b1 lines, buffer_ok b1 ∧
      id_print cfg (snapshot cfg child (child.getregs.getD regs)) dis b = some (b1, lines) ∧
      lines.length ≤ 1 ∧
      (0 < (dis.print_insn_i386 (instr_bytes cfg
        (snapshot cfg child (child.getregs.getD regs)))).ret → lines.length = 1) ∧
      ((dis.print_insn_i386 (instr_bytes cfg
        (snapshot cfg child (child.getregs.getD regs)))).ret ≤ 0 → lines = []) ∧
      stepping cfg dis b regs (WaitRes.ok status child :: rest) =
        { steps := (stepping cfg dis b1 (child.getregs.getD regs) rest).steps + 1,
          out := lines ++ (stepping cfg dis b1 (child.getregs.getD regs) rest).out,
          outcome := (stepping cfg dis b1 (child.getregs.getD regs) rest).outcome } := by
  obtain ⟨b0, b1, _, _, _, hb1, hp⟩ :=
    id_print_eq cfg (snapshot cfg child (child.getregs.getD regs)) dis hb
  refine ⟨b1, _, hb1, hp, ?_, ?_, ?_, ?_⟩
  · split <;> simp
  · intro hpos
    have : ¬ (dis.print_insn_i386 (instr_bytes cfg
        (snapshot cfg child (child.getregs.getD regs)))).ret ≤ 0 := by omega
    simp [this]
  · intro hneg
    simp [hneg]
  · simp only [stepping, h, hp]
    simp

theorem snapshot_bytes_length (cfg : Config) (c : Child) (pc : Nat) :
    (instr_bytes cfg (snapshot cfg c pc)).length = WORDS_PER_INSTR cfg * cfg.sizeof_long := by
  rw [instr_bytes_length]
  simp [snapshot]

theorem stepping_control (cfg : Config) (dis : Disassembler) (ws : List WaitRes) :
    ∀ {b : id_buffer}, buffer_ok b → ∀ regs : Nat,
      (stepping cfg dis b regs ws).steps = (control ws).1 ∧
      (stepping cfg dis b regs ws).outcome = (control ws).2 := by
  induction ws with
  | nil => intro b _ regs; simp [stepping, control]
  | cons w ws ih =>
    intro b hb regs
    cases w with
    | fail errno =>
      by_cases he : errno = EINTR
      · subst he
        rw [stepping_eintr]
        simpa [control] using ih hb regs
      · rw [stepping_fail cfg dis b regs he]
        simp [control, he]
    | ok status child =>
      cases hx : WIFEXITED status with
      | true =>
        rw [stepping_exited cfg dis b regs hx]
        simp [control, hx]
      | false =>
        obtain ⟨b1, lines, hb1, _, _, _, _, hs⟩ :=
          stepping_stopped cfg dis hb regs hx child ws
        rw [hs]
        have := ih hb1 (child.getregs.getD regs)
        simp [control, hx, this.1, this.2]

theorem stepping_lines (cfg : Config) (dis : Disassembler) (ws : List WaitRes) :
    ∀ {b : id_buffer}, buffer_ok b → ∀ regs : Nat,
      (stepping cfg dis b regs ws).out.length ≤ (stepping cfg dis b regs ws).steps ∧
      ((∀ w : List Int, w.length = WORDS_PER_INSTR cfg * cfg.sizeof_long →
          0 < (dis.print_insn_i386 w).ret) →
        (stepping cfg dis b regs ws).out.length = (stepping cfg dis b regs ws).steps) := by
  induction ws with
  | nil => intro b _ regs; simp [stepping]
  | cons w ws ih =>
    intro b hb regs
    cases w with
    | fail errno =>
      by_cases he : errno = EINTR
      · subst he
        rw [stepping_eintr]
        exact ih hb regs
      · rw [stepping_fail cfg dis b regs he]
        simp
    | ok status child =>
      cases hx : WIFEXITED status with
      | true =>
        rw [stepping_exited cfg dis b regs hx]
        simp
      | false =>
        obtain ⟨b1, lines, hb1, _, hle, hone, _, hs⟩ :=
          stepping_stopped cfg dis hb regs hx child ws
        rw [hs]
        have := ih hb1 (child.getregs.getD regs)
        refine ⟨?_, ?_⟩
        · simp only [List.length_append]
          omega
        · intro hall
          have h1 := hone (hall _ (snapshot_bytes_length cfg child _))
          have h2 := this.2 hall
          simp only [List.length_append]
          omega

theorem control_filter (ws : List WaitRes) :
    control (ws.filter WaitRes.decisive) = control ws := by
  induction ws with
  | nil => rfl
  | cons w ws ih =>
    cases w with
    | fail errno =>
      by_cases he : errno = EINTR
      · have h1 : ¬ (WaitRes.fail errno).decisive = true := by
          simp [WaitRes.decisive, WaitRes.interrupted, he]
        rw [List.filter_cons_of_neg h1, ih]
        simp [control, he]
      · have h1 : (WaitRes.fail errno).decisive = true := by
          simp [WaitRes.decisive, WaitRes.interrupted, he]
        rw [List.filter_cons_of_pos h1]
        simp [control, he]
    | ok status child =>
      have h1 : (WaitRes.ok status child).decisive = true := by
        simp [WaitRes.decisive, WaitRes.interrupted]
      rw [List.filter_cons_of_pos h1]
      simp only [control, ih]

theorem control_map_fail (ws : List WaitRes) :
    control (ws.map ptrace_all_fail) = control ws := by
  induction ws with
  | nil => rfl
  | cons w ws ih =>
    cases w with
    | fail errno => simp [ptrace_all_fail, control, ih]
    | ok status child => simp [ptrace_all_fail, control, ih]


theorem stepping_filter (cfg : Config) (dis : Disassembler) (ws : List WaitRes) :
    ∀ (b : id_buffer) (regs : Nat),
      stepping cfg dis b regs (ws.filter WaitRes.decisive) = stepping cfg dis b regs ws := by
  induction ws with
  | nil => intro b regs; rfl
  | cons w ws ih =>
    intro b regs
    cases w with
    | fail errno =>
      by_cases he : errno = EINTR
      · have h1 : ¬ (WaitRes.fail errno).decisive = true := by
          simp [WaitRes.decisive, WaitRes.interrupted, he]
        rw [List.filter_cons_of_neg h1, ih]
        simp [stepping, he]
      · have h1 : (WaitRes.fail errno).decisive = true := by
          simp [WaitRes.decisive, WaitRes.interrupted, he]
        rw [List.filter_cons_of_pos h1]
        simp [stepping, he]
    | ok status child =>
      have h1 : (WaitRes.ok status child).decisive = true := by
        simp [WaitRes.decisive, WaitRes.interrupted]
      rw [List.filter_cons_of_pos h1]
      simp only [stepping, ih]

theorem id_main_parent_filter (cfg : Config) (dis : Disassembler) (b : id_buffer) (regs : Nat)
    (ws : List WaitRes) :
    id_main_parent cfg dis b regs (ws.filter WaitRes.decisive) =
      id_main_parent cfg dis b regs ws := by
  induction ws with
  | nil => rfl
  | cons w ws ih =>
    cases w with
    | fail errno =>
      by_cases he : errno = EINTR
      · have h1 : ¬ (WaitRes.fail errno).decisive = true := by
          simp [WaitRes.decisive, WaitRes.interrupted, he]
        rw [List.filter_cons_of_neg h1, ih]
        simp [id_main_parent, he]
      · have h1 : (WaitRes.fail errno).decisive = true := by
          simp [WaitRes.decisive, WaitRes.interrupted, he]
        rw [List.filter_cons_of_pos h1]
        simp [id_main_parent, he]
    | ok status child =>
      have h1 : (WaitRes.ok status child).decisive = true := by
        simp [WaitRes.decisive, WaitRes.interrupted]
      rw [List.filter_cons_of_pos h1]
      simp only [id_main_parent, id_main_loop, stepping_filter]

theorem stepping_replicate_eintr (cfg : Config) (dis : Disassembler) (b : id_buffer)
    (regs : Nat) (rest : List WaitRes) : ∀ n : Nat,
    stepping cfg dis b regs (List.replicate n (WaitRes.fail EINTR) ++ rest) =
      stepping cfg dis b regs rest := by
  intro n
  induction n with
  | zero => rfl
  | succ n ih => rw [List.replicate_succ, List.cons_append, stepping_eintr, ih]

theorem id_main_parent_eintr (cfg : Config) (dis : Disassembler) (b : id_buffer) (regs : Nat)
    (rest : List WaitRes) :
    id_main_parent cfg dis b regs (WaitRes.fail EINTR :: rest) =
      id_main_parent cfg dis b regs rest := by
  simp [id_main_parent]

theorem id_main_parent_fail (cfg : Config) (dis : Disassembler) (b : id_buffer) (regs : Nat)
    {errno : Nat} (h : errno ≠ EINTR) (rest : List WaitRes) :
    id_main_parent cfg dis b regs (WaitRes.fail errno :: rest) =
      { steps := 0, out := [], outcome := Outcome.fatal EXIT_FAILURE "waitpid" } := by
  simp [id_main_parent, h]

theorem id_main_parent_replicate_eintr (cfg : Config) (dis : Disassembler) (b : id_buffer)
    (regs : Nat) (rest : List WaitRes) : ∀ n : Nat,
    id_main_parent cfg dis b regs (List.replicate n (WaitRes.fail EINTR) ++ rest) =
      id_main_parent cfg dis b regs rest := by
  intro n
  induction n with
  | zero => rfl
  | succ n ih => rw [List.replicate_succ, List.cons_append, id_main_parent_eintr, ih]

/-- The loop as a function of the wait outcomes, from the first wait of `id_main_parent`. -/
theorem id_main_parent_control (cfg : Config) (dis : Disassembler) {b : id_buffer}
    (hb : buffer_ok b) (regs : Nat) (ws : List WaitRes) :
    (id_main_parent cfg dis b regs ws).steps = (parent_control ws).1 ∧
    (id_main_parent cfg dis b regs ws).outcome = (parent_control ws).2 := by
  induction ws with
  | nil => simp [id_main_parent, parent_control]
  | cons w ws ih =>
    cases w with
    | fail errno =>
      by_cases he : errno = EINTR
      · subst he
        rw [id_main_parent_eintr]
        simpa [parent_control] using ih
      · rw [id_main_parent_fail cfg dis b regs he]
        simp [parent_control, he]
    | ok status child =>
      have := stepping_control cfg dis ws hb regs
      simp [id_main_parent, id_main_loop, parent_control, this.1, this.2]

theorem id_main_parent_lines (cfg : Config) (dis : Disassembler) {b : id_buffer}
    (hb : buffer_ok b) (regs : Nat) (ws : List WaitRes) :
    (id_main_parent cfg dis b regs ws).out.length ≤
      (id_main_parent cfg dis b regs ws).steps - 1 ∧
    ((∀ w : List Int, w.length = WORDS_PER_INSTR cfg * cfg.sizeof_long →
        0 < (dis.print_insn_i386 w).ret) →
      (id_main_parent cfg dis b regs ws).out.length =
        (id_main_parent cfg dis b regs ws).steps - 1) := by
  induction ws with
  | nil => simp [id_main_parent]
  | cons w ws ih =>
    cases w with
    | fail errno =>
      by_cases he : errno = EINTR
      · subst he
        rw [id_main_parent_eintr]
        exact ih
      · rw [id_main_parent_fail cfg dis b regs he]
        simp
    | ok status child =>
      have := stepping_lines cfg dis ws hb regs
      simp only [id_main_parent, id_main_loop]
      refine ⟨by omega, fun hall => ?_⟩
      have := this.2 hall
      omega

theorem control_fatal (ws : List WaitRes) {st : Nat} {diag : String}
    (h : (control ws).2 = Outcome.fatal st diag) :
    st = EXIT_FAILURE ∧ ∃ errno, WaitRes.fail errno ∈ ws ∧ errno ≠ EINTR := by
  induction ws with
  | nil => simp [control] at h
  | cons w ws ih =>
    cases w with
    | fail errno =>
      by_cases he : errno = EINTR
      · simp only [control, he, if_true] at h
        obtain ⟨h1, e, h2, h3⟩ := ih h
        exact ⟨h1, e, List.mem_cons_of_mem _ h2, h3⟩
      · simp only [control, he, if_false] at h
        injection h with h1 _
        exact ⟨h1.symm, errno, List.mem_cons_self _ _, he⟩
    | ok status child =>
      cases hx : WIFEXITED status with
      | true => simp [control, hx] at h
      | false =>
        simp only [control, hx] at h
        obtain ⟨h1, e, h2, h3⟩ := ih h
        exact ⟨h1, e, List.mem_cons_of_mem _ h2, h3⟩

theorem parent_control_fatal (ws : List WaitRes) {st : Nat} {diag : String}
    (h : (parent_control ws).2 = Outcome.fatal st diag) :
    st = EXIT_FAILURE ∧ ∃ errno, WaitRes.fail errno ∈ ws ∧ errno ≠ EINTR := by
  induction ws with
  | nil => simp [parent_control] at h
  | cons w ws ih =>
    cases w with
    | fail errno =>
      by_cases he : errno = EINTR
      · simp only [parent_control, he, if_true] at h
        obtain ⟨h1, e, h2, h3⟩ := ih h
        exact ⟨h1, e, List.mem_cons_of_mem _ h2, h3⟩
      · simp only [parent_control, he, if_false] at h
        injection h with h1 _
        exact ⟨h1.symm, errno, List.mem_cons_self _ _, he⟩
    | ok status child =>
      simp only [parent_control] at h
      obtain ⟨h1, e, h2, h3⟩ := control_fatal ws h
      exact ⟨h1, e, List.mem_cons_of_mem _ h2, h3⟩

theorem parent_control_map_fail (ws : List WaitRes) :
    parent_control (ws.map ptrace_all_fail) = parent_control ws := by
  induction ws with
  | nil => rfl
  | cons w ws ih =>
    cases w with
    | fail errno => simp [ptrace_all_fail, parent_control, ih]
    | ok status child => simp [ptrace_all_fail, parent_control, control_map_fail]

/-- The loop runs through outcomes that keep it going, one request per status. -/
theorem control_keeps_going (pre tail : List WaitRes)
    (h : ∀ w ∈ pre, w.keeps_going = true) :
    control (pre ++ tail) = ((control tail).1 + count_ok pre, (control tail).2) := by
  induction pre with
  | nil => simp [count_ok]
  | cons w pre ih =>
    have hw := h w (List.mem_cons_self _ _)
    have ih := ih (fun x hx => h x (List.mem_cons_of_mem _ hx))
    cases w with
    | fail errno =>
      have he : errno = EINTR := by simpa [WaitRes.keeps_going] using hw
      simp [control, he, ih, count_ok]
    | ok status child =>
      have hx : WIFEXITED status = false := by simpa [WaitRes.keeps_going] using hw
      rw [List.cons_append]
      simp only [control, hx, count_ok]
      rw [ih]
      simp
      omega

theorem parent_control_interrupted (w0 tail : List WaitRes)
    (h : ∀ w ∈ w0, w.interrupted = true) :
    parent_control (w0 ++ tail) = parent_control tail := by
  induction w0 with
  | nil => rfl
  | cons w w0 ih =>
    have hw := h w (List.mem_cons_self _ _)
    have ih := ih (fun x hx => h x (List.mem_cons_of_mem _ hx))
    cases w with
    | fail errno =>
      have he : errno = EINTR := by simpa [WaitRes.interrupted] using hw
      simp [parent_control, he, ih]
    | ok status child => simp [WaitRes.interrupted] at hw

theorem toy_dis_decodes (w : List Int) (h : 0 < w.length) :
    0 < (toy_dis.print_insn_i386 w).ret := by
  have h0 : ¬ w.length = 0 := by omega
  simp only [toy_dis, h0, if_false]
  decide


theorem wifexited_exitcode (code : Nat) : WIFEXITED (W_EXITCODE code) = true := by
  simp only [WIFEXITED, W_EXITCODE, beq_iff_eq]
  omega

/-- The function `main` in the parent: `id_init` and `id_fork` succeed, then the tracer. -/
theorem main_parent (cfg : Config) (dis : Disassembler) (argc : Int) (argv : List String)
    (os : OS) (hargc : 2 ≤ argc) (hfork : 0 < os.fork) :
    main cfg dis argc argv os =
      { forks := 1,
        trace :=
          { steps := (id_main_parent cfg dis id_init_buffer os.regs os.waits).steps,
            out := (id_main_parent cfg dis id_init_buffer os.regs os.waits).out,
            outcome :=
              match (id_main_parent cfg dis id_init_buffer os.regs os.waits).outcome with
              | Outcome.returned => Outcome.exit EXIT_SUCCESS
              | o => o } } := by
  have h1 : ¬ argc < 2 := by omega
  have h2 : ¬ os.fork < 0 := by omega
  simp only [main, id_init, h1, if_false, id_fork, h2, hfork, if_true]
  rfl

theorem main_filter (cfg : Config) (dis : Disassembler) (argc : Int) (argv : List String)
    (os : OS) :
    main cfg dis argc argv { os with waits := os.waits.filter WaitRes.decisive } =
      main cfg dis argc argv os := by
  simp only [main, id_fork, id_main_child, id_main_parent_filter]

/-! ## The claims -/

/-- C5. Line buffer invariant: starting from the state set by `id_init` and under every
sequence of the two buffer operations (the reset at the start of `id_print`, and
`id_buffer_printf` with any text of any length or a formatting error), no store leaves the
128 byte array (the run is never `none`), the array keeps holding a terminator, and the
text in the buffer never has a length exceeding `buffer.cap`. -/
theorem buffer_invariant (ops : List BufOp) :
    ∃ b, run_ops id_init_buffer ops = some b ∧ b.cap = DATA_SIZE ∧ DATA_SIZE = 128 ∧
      b.data.length = DATA_SIZE ∧ NUL ∈ b.data ∧ (c_str b.data).length ≤ b.cap := by
  obtain ⟨b, h, hcap, hlen, hnul⟩ := run_ops_ok ops id_init_buffer_ok
  refine ⟨b, h, hcap, rfl, hlen, hnul, ?_⟩
  have := c_str_length_lt hnul
  omega

/-- C4, as the specification states it, fails: after one append of a 200 character text to
the buffer left by `id_init` and the reset, the accumulated length is 200, past the capacity
128, and the text left in the buffer has 127 characters, not 128. -/
theorem truncated_text_is_shorter_than_cap :
    ((id_print_reset id_init_buffer).bind fun b =>
        id_buffer_printfs b [Fmt.text (List.replicate 200 'a')]).map
      (fun b => (b.cap, b.len, (c_str b.data).length, decide ((c_str b.data).length = b.cap)))
      = some (128, 200, 127, false) := by
  set_option maxRecDepth 100000 in decide

/-- C4, amended. For every sequence of `id_buffer_printf` appends of C strings made after a
reset of a well-formed buffer, the appends are all defined, and whenever the accumulated
length `buffer.len` has gone past `buffer.cap`, the text left in the buffer ends with the
marker `...` and its length is exactly `buffer.cap - 1`: with its terminator it fills the
array. -/
theorem truncation_marker (b : id_buffer) (hb : buffer_ok b) (fs : List Fmt)
    (hfs : ∀ f ∈ fs, f.nul_free) :
    ∃ b0 b1, id_print_reset b = some b0 ∧ id_buffer_printfs b0 fs = some b1 ∧
      (b1.len > b1.cap →
        MARKER <:+ c_str b1.data ∧ (c_str b1.data).length = b1.cap - 1 ∧
        (c_str b1.data).length + 1 = DATA_SIZE) := by
  obtain ⟨b0, h0, hb0, hl0⟩ := id_print_reset_ok hb
  obtain ⟨b1, h1, hb1⟩ := id_buffer_printfs_ok fs hb0
  refine ⟨b0, b1, h0, h1, fun hov => ?_⟩
  have hinv0 : marker_inv b0 := by
    refine ⟨hb0.1, hb0.2.1, ?_, ?_⟩
    · intro _ c hc
      rw [hl0] at hc
      simp at hc
    · intro h
      rw [hl0] at h
      omega
  have hinv1 := id_buffer_printfs_marker fs hinv0 hfs h1
  obtain ⟨hm, hl⟩ := hinv1.2.2.2 hov
  refine ⟨hm, hl, ?_⟩
  rw [hl, hinv1.1]
  rfl

/-- Witness for C4: a 200 character text appended to the buffer of `id_init`; the
accumulated length 200 is past the capacity. -/
theorem truncation_marker_witness :
    (((id_print_reset id_init_buffer).bind fun b =>
        id_buffer_printfs b [Fmt.text (List.replicate 200 'a')]).map
      (fun b => decide (b.len > b.cap))) = some true ∧
    ∃ b0 b1, id_print_reset id_init_buffer = some b0 ∧
      id_buffer_printfs b0 [Fmt.text (List.replicate 200 'a')] = some b1 ∧
      (b1.len > b1.cap →
        MARKER <:+ c_str b1.data ∧ (c_str b1.data).length = b1.cap - 1 ∧
        (c_str b1.data).length + 1 = DATA_SIZE) :=
  ⟨by set_option maxRecDepth 100000 in decide,
   truncation_marker id_init_buffer id_init_buffer_ok [Fmt.text (List.replicate 200 'a')]
    (by
      intro f hf
      have hf2 : f = Fmt.text (List.replicate 200 'a') := by simpa using hf
      subst hf2
      show NUL ∉ List.replicate 200 'a'
      intro hmem
      have := List.eq_of_mem_replicate hmem
      exact absurd this (by decide))⟩

/-- C1, as the specification states it, fails: for a one byte `nop` at 0x401000 the line
that `id_print` writes starts with a space and has a tab after the colon, which the
claimed layout (address, colon, bytes) does not have. -/
theorem id_print_line_is_not_the_claimed_line :
    (id_print config64 (snapshot config64 nop_child 4198400) toy_dis id_init_buffer).map Prod.snd
      = some [[' ', '4', '0', '1', '0', '0', '0', ':', TAB, '9', '0', ' '] ++
          List.replicate 18 ' ' ++ [TAB, 'n', 'o', 'p', LF]] ∧
    claimed_line config64 4198400 (instr_bytes config64 (snapshot config64 nop_child 4198400)) 1
        ['n', 'o', 'p']
      = ['4', '0', '1', '0', '0', '0', ':', '9', '0', ' '] ++
          List.replicate 18 ' ' ++ [TAB, 'n', 'o', 'p', LF] ∧
    (id_print config64 (snapshot config64 nop_child 4198400) toy_dis id_init_buffer).map Prod.snd
      ≠ some [claimed_line config64 4198400
          (instr_bytes config64 (snapshot config64 nop_child 4198400)) 1 ['n', 'o', 'p']] := by
  set_option maxRecDepth 100000 in decide

/-- C1, amended. For every consumed length `s > 0` returned by the disassembler, every
instruction pointer and every buffered text, `id_print` is defined and writes exactly one
line made of: one space, the instruction pointer in lowercase hexadecimal without padding, a
colon and a tab, the first `s` bytes of the window each as exactly two hexadecimal digits
(value modulo 256) followed by one space, `21 - 3 * min s 7` spaces, a tab, the text of the
buffer and a line feed. The byte column with its padding is `max (3 * s) 21` wide. -/
theorem id_print_line (cfg : Config) (ins : id_instr) (dis : Disassembler) (b : id_buffer)
    (s : Nat) (hb : buffer_ok b)
    (hret : (dis.print_insn_i386 (instr_bytes cfg ins)).ret = (s : Int)) (hs : 0 < s) :
    ∃ b0 b1, id_print_reset b = some b0 ∧
      id_buffer_printfs b0 (dis.print_insn_i386 (instr_bytes cfg ins)).calls = some b1 ∧
      id_print cfg ins dis b = some (b1,
        [[' '] ++ Nat.toDigits 16 (to_ulong cfg ins.ip) ++ [':', TAB] ++
          ((instr_bytes cfg ins).take s).flatMap
            (fun x => printf_02x (x % 256).toNat ++ [' ']) ++
          List.replicate (21 - 3 * min s 7) ' ' ++ [TAB] ++ c_str b1.data ++ [LF]]) ∧
      (∀ x : Int, (printf_02x (x % 256).toNat).length = 2) ∧
      (((instr_bytes cfg ins).take s).flatMap
          (fun x => printf_02x (x % 256).toNat ++ [' '])).length + (21 - 3 * min s 7)
        = max (3 * s) 21 := by
  obtain ⟨b0, b1, h0, _, h1, _, hp⟩ := id_print_eq cfg ins dis hb
  have hbound := dis.bounded (instr_bytes cfg ins)
  rw [hret] at hbound
  have hle : s ≤ (instr_bytes cfg ins).length := by exact_mod_cast hbound
  refine ⟨b0, b1, h0, h1, ?_, fun x => printf_02x_length _ (emod_256_toNat_lt x), ?_⟩
  · rw [hp, hret]
    have hneg : ¬ ((s : Int) ≤ 0) := by omega
    simp only [hneg, if_false, Int.toNat_natCast, printf_lx, hex_column]
  · have := hex_column_length ((instr_bytes cfg ins).take s)
    rw [hex_column, List.length_take] at this
    rw [this]
    omega

/-- Witness for C1: the example of the comment above `id_print`, the three byte instruction
`41 89 f8` at 0x7f09959621f0, and a ten byte instruction, which gets no padding. -/
theorem id_print_line_witness :
    (id_print config64 (snapshot config64 mov_child 0x7f09959621f0) mov_dis
        id_init_buffer).map Prod.snd =
      some [" 7f09959621f0:".toList ++ [TAB] ++ "41 89 f8 ".toList ++ List.replicate 12 ' ' ++
        [TAB] ++ "mov    %edi,%r8d".toList ++ [LF]] ∧
    (id_print config64 (snapshot config64 nop_child 4198400) wide_dis id_init_buffer).map
        Prod.snd =
      some [" 401000:".toList ++ [TAB] ++ "90 90 90 90 90 90 90 90 90 90 ".toList ++
        [TAB] ++ "movabs".toList ++ [LF]] ∧
    ∃ b0 b1, id_print_reset id_init_buffer = some b0 ∧
      id_buffer_printfs b0 (mov_dis.print_insn_i386
        (instr_bytes config64 (snapshot config64 mov_child 0x7f09959621f0))).calls = some b1 ∧
      id_print config64 (snapshot config64 mov_child 0x7f09959621f0) mov_dis id_init_buffer =
        some (b1,
          [[' '] ++
            Nat.toDigits 16 (to_ulong config64 (snapshot config64 mov_child 0x7f09959621f0).ip) ++
            [':', TAB] ++
            ((instr_bytes config64 (snapshot config64 mov_child 0x7f09959621f0)).take 3).flatMap
              (fun x => printf_02x (x % 256).toNat ++ [' ']) ++
            List.replicate (21 - 3 * min 3 7) ' ' ++ [TAB] ++ c_str b1.data ++ [LF]]) ∧
      (∀ x : Int, (printf_02x (x % 256).toNat).length = 2) ∧
      (((instr_bytes config64 (snapshot config64 mov_child 0x7f09959621f0)).take 3).flatMap
          (fun x => printf_02x (x % 256).toNat ++ [' '])).length + (21 - 3 * min 3 7)
        = max (3 * 3) 21 :=
  ⟨by set_option maxRecDepth 100000 in decide,
   by set_option maxRecDepth 100000 in decide,
   id_print_line config64 (snapshot config64 mov_child 0x7f09959621f0) mov_dis id_init_buffer 3
    id_init_buffer_ok (by decide) (by decide)⟩

/-- C2, as the specification states it, fails: the child stops once and then exits, the
toy disassembler decodes every window of 16 bytes, two `PTRACE_SINGLESTEP` requests were
issued and one line was written. -/
theorem lines_differ_from_steps :
    (id_main_parent config64 toy_dis id_init_buffer 0
      [WaitRes.ok (W_STOPCODE 19) nop_child, WaitRes.ok (W_STOPCODE SIGTRAP) nop_child,
        WaitRes.ok (W_EXITCODE 0) nop_child]) =
      { steps := 2,
        out := [[' ', '4', '0', '1', '0', '0', '0', ':', TAB, '9', '0', ' '] ++
          List.replicate 18 ' ' ++ [TAB, 'n', 'o', 'p', LF]],
        outcome := Outcome.returned } ∧
    (∀ w : List Int, w.length = 16 → 0 < (toy_dis.print_insn_i386 w).ret) := by
  refine ⟨by set_option maxRecDepth 100000 in decide, ?_⟩
  intro w hw
  exact toy_dis_decodes w (by omega)

/-- C2, amended. For every run of `id_main_parent` against any sequence of wait outcomes and
any disassembler, the number of lines written never exceeds the number of
`PTRACE_SINGLESTEP` requests issued (it is at most that number less one); when the
disassembler decodes every window of the size
the tracer passes, the number of lines is exactly one less than the number of requests (the
wait of the last request ends the run or is still pending), and both are 0 when the loop
is never entered. -/
theorem lines_and_steps (cfg : Config) (dis : Disassembler) (b : id_buffer) (hb : buffer_ok b)
    (regs : Nat) (waits : List WaitRes) :
    (id_main_parent cfg dis b regs waits).out.length ≤
      (id_main_parent cfg dis b regs waits).steps ∧
    (id_main_parent cfg dis b regs waits).out.length ≤
      (id_main_parent cfg dis b regs waits).steps - 1 ∧
    ((∀ w : List Int, w.length = WORDS_PER_INSTR cfg * cfg.sizeof_long →
        0 < (dis.print_insn_i386 w).ret) →
      (id_main_parent cfg dis b regs waits).out.length =
        (id_main_parent cfg dis b regs waits).steps - 1) := by
  have h := id_main_parent_lines cfg dis hb regs waits
  exact ⟨by omega, h.1, h.2⟩

/-- Witness for C2: the run of the counterexample; one line, two requests. -/
theorem lines_and_steps_witness :
    (id_main_parent config64 toy_dis id_init_buffer 0
        [WaitRes.ok (W_STOPCODE 19) nop_child, WaitRes.ok (W_STOPCODE SIGTRAP) nop_child,
          WaitRes.ok (W_EXITCODE 0) nop_child]).out.length = 2 - 1 ∧
    (id_main_parent config64 toy_dis id_init_buffer 0
        [WaitRes.ok (W_STOPCODE 19) nop_child, WaitRes.ok (W_STOPCODE SIGTRAP) nop_child,
          WaitRes.ok (W_EXITCODE 0) nop_child]).steps = 2 := by
  have h := lines_and_steps config64 toy_dis id_init_buffer id_init_buffer_ok 0
    [WaitRes.ok (W_STOPCODE 19) nop_child, WaitRes.ok (W_STOPCODE SIGTRAP) nop_child,
      WaitRes.ok (W_EXITCODE 0) nop_child]
  have hsteps : (id_main_parent config64 toy_dis id_init_buffer 0
      [WaitRes.ok (W_STOPCODE 19) nop_child, WaitRes.ok (W_STOPCODE SIGTRAP) nop_child,
        WaitRes.ok (W_EXITCODE 0) nop_child]).steps = 2 := by
    set_option maxRecDepth 100000 in decide
  have hall : ∀ w : List Int, w.length = WORDS_PER_INSTR config64 * config64.sizeof_long →
      0 < (toy_dis.print_insn_i386 w).ret := by
    intro w hw
    have h16 : WORDS_PER_INSTR config64 * config64.sizeof_long = 16 := by decide
    exact toy_dis_decodes w (by omega)
  exact ⟨by rw [h.2.2 hall, hsteps], hsteps⟩

/-- C3. For every instruction snapshot, when the disassembler returns a non-positive
consumed length, `id_print` is defined and writes nothing for that step, and the loop goes on
to the next iteration: the run is the run of the remaining wait outcomes with one request
more and no line added. The number of requests and the way the run ends are the same with
any other disassembler, so they do not depend on the decoding having failed. -/
theorem decode_failure_is_skipped (cfg : Config) (dis : Disassembler) (b : id_buffer)
    (regs status : Nat) (child : Child) (rest : List WaitRes) (hb : buffer_ok b)
    (hx : WIFEXITED status = false)
    (hs : (dis.print_insn_i386
      (instr_bytes cfg (snapshot cfg child (child.getregs.getD regs)))).ret ≤ 0) :
    ∃ b1, buffer_ok b1 ∧
      id_print cfg (snapshot cfg child (child.getregs.getD regs)) dis b = some (b1, []) ∧
      stepping cfg dis b regs (WaitRes.ok status child :: rest) =
        { steps := (stepping cfg dis b1 (child.getregs.getD regs) rest).steps + 1,
          out := (stepping cfg dis b1 (child.getregs.getD regs) rest).out,
          outcome := (stepping cfg dis b1 (child.getregs.getD regs) rest).outcome } ∧
      ∀ dis2 : Disassembler,
        (stepping cfg dis2 b regs (WaitRes.ok status child :: rest)).steps =
          (stepping cfg dis b regs (WaitRes.ok status child :: rest)).steps ∧
        (stepping cfg dis2 b regs (WaitRes.ok status child :: rest)).outcome =
          (stepping cfg dis b regs (WaitRes.ok status child :: rest)).outcome := by
  obtain ⟨b1, lines, hb1, hp, _, _, hnil, hstep⟩ :=
    stepping_stopped cfg dis hb regs hx child rest
  have hl : lines = [] := hnil hs
  subst hl
  refine ⟨b1, hb1, hp, by simpa using hstep, fun dis2 => ?_⟩
  have h1 := stepping_control cfg dis (WaitRes.ok status child :: rest) hb regs
  have h2 := stepping_control cfg dis2 (WaitRes.ok status child :: rest) hb regs
  exact ⟨by rw [h1.1, h2.1], by rw [h1.2, h2.2]⟩

/-- Witness for C3: a disassembler that decodes nothing, a stop, then the exit. -/
theorem decode_failure_is_skipped_witness :
    ∃ b1, buffer_ok b1 ∧
      id_print config64 (snapshot config64 nop_child (nop_child.getregs.getD 0)) deaf_dis
        id_init_buffer = some (b1, []) ∧
      stepping config64 deaf_dis id_init_buffer 0
          (WaitRes.ok (W_STOPCODE SIGTRAP) nop_child :: [WaitRes.ok (W_EXITCODE 0) nop_child]) =
        { steps := (stepping config64 deaf_dis b1 (nop_child.getregs.getD 0)
            [WaitRes.ok (W_EXITCODE 0) nop_child]).steps + 1,
          out := (stepping config64 deaf_dis b1 (nop_child.getregs.getD 0)
            [WaitRes.ok (W_EXITCODE 0) nop_child]).out,
          outcome := (stepping config64 deaf_dis b1 (nop_child.getregs.getD 0)
            [WaitRes.ok (W_EXITCODE 0) nop_child]).outcome } ∧
      ∀ dis2 : Disassembler,
        (stepping config64 dis2 id_init_buffer 0
          (WaitRes.ok (W_STOPCODE SIGTRAP) nop_child ::
            [WaitRes.ok (W_EXITCODE 0) nop_child])).steps =
          (stepping config64 deaf_dis id_init_buffer 0
            (WaitRes.ok (W_STOPCODE SIGTRAP) nop_child ::
              [WaitRes.ok (W_EXITCODE 0) nop_child])).steps ∧
        (stepping config64 dis2 id_init_buffer 0
          (WaitRes.ok (W_STOPCODE SIGTRAP) nop_child ::
            [WaitRes.ok (W_EXITCODE 0) nop_child])).outcome =
          (stepping config64 deaf_dis id_init_buffer 0
            (WaitRes.ok (W_STOPCODE SIGTRAP) nop_child ::
              [WaitRes.ok (W_EXITCODE 0) nop_child])).outcome :=
  decode_failure_is_skipped config64 deaf_dis id_init_buffer 0 (W_STOPCODE SIGTRAP) nop_child
    [WaitRes.ok (W_EXITCODE 0) nop_child] id_init_buffer_ok (by decide) (by decide)

/-- C6, as the specification states it, fails: on a child for which every `ptrace` request
fails (single step, registers, memory words), the tracer does not abort: it goes on to
issue three requests, writes a line for each of the two failed steps (address 0, the byte
`ff` of the error value -1) and returns when the exit is reported. -/
theorem ptrace_failure_does_not_abort :
    id_main_parent config64 toy_dis id_init_buffer 0
      [WaitRes.ok (W_STOPCODE 19) lost_child, WaitRes.ok (W_STOPCODE SIGTRAP) lost_child,
        WaitRes.ok (W_STOPCODE SIGTRAP) lost_child, WaitRes.ok (W_EXITCODE 0) lost_child] =
      { steps := 3,
        out := [[' ', '0', ':', TAB, 'f', 'f', ' '] ++ List.replicate 18 ' ' ++
            [TAB, 'n', 'o', 'p', LF],
          [' ', '0', ':', TAB, 'f', 'f', ' '] ++ List.replicate 18 ' ' ++
            [TAB, 'n', 'o', 'p', LF]],
        outcome := Outcome.returned } := by
  set_option maxRecDepth 100000 in decide

/-- C6, amended. In the tracer the results of `PTRACE_SINGLESTEP`, `PTRACE_GETREGS` and
`PTRACE_PEEKDATA` are not looked at: with every one of these requests failing, the number
of requests issued and the way the run ends are the same as with none failing. The only
fatal condition of `id_main_parent` is a wait that fails for a reason other than an
interruption, and its exit status is `EXIT_FAILURE`. -/
theorem ptrace_results_are_ignored (cfg : Config) (dis : Disassembler) (b : id_buffer)
    (hb : buffer_ok b) (regs : Nat) (waits : List WaitRes) :
    (id_main_parent cfg dis b regs (waits.map ptrace_all_fail)).steps =
      (id_main_parent cfg dis b regs waits).steps ∧
    (id_main_parent cfg dis b regs (waits.map ptrace_all_fail)).outcome =
      (id_main_parent cfg dis b regs waits).outcome ∧
    (∀ (st : Nat) (diag : String),
      (id_main_parent cfg dis b regs waits).outcome = Outcome.fatal st diag →
        st = EXIT_FAILURE ∧ ∃ errno, WaitRes.fail errno ∈ waits ∧ errno ≠ EINTR) := by
  have h1 := id_main_parent_control cfg dis hb regs waits
  have h2 := id_main_parent_control cfg dis hb regs (waits.map ptrace_all_fail)
  rw [parent_control_map_fail] at h2
  refine ⟨by rw [h1.1, h2.1], by rw [h1.2, h2.2], fun st diag h => ?_⟩
  rw [h1.2] at h
  exact parent_control_fatal waits h

/-- Witness for C6: a run of two stops and an exit on a child whose `ptrace` requests all
succeed; it makes two requests and returns, as it does with every request failing. -/
theorem ptrace_results_are_ignored_witness :
    (id_main_parent config64 toy_dis id_init_buffer 0
      ([WaitRes.ok (W_STOPCODE 19) nop_child, WaitRes.ok (W_STOPCODE SIGTRAP) nop_child,
        WaitRes.ok (W_EXITCODE 0) nop_child].map ptrace_all_fail)).steps = 2 ∧
    (id_main_parent config64 toy_dis id_init_buffer 0
      ([WaitRes.ok (W_STOPCODE 19) nop_child, WaitRes.ok (W_STOPCODE SIGTRAP) nop_child,
        WaitRes.ok (W_EXITCODE 0) nop_child].map ptrace_all_fail)).outcome =
      Outcome.returned := by
  have h := ptrace_results_are_ignored config64 toy_dis id_init_buffer id_init_buffer_ok 0
    [WaitRes.ok (W_STOPCODE 19) nop_child, WaitRes.ok (W_STOPCODE SIGTRAP) nop_child,
      WaitRes.ok (W_EXITCODE 0) nop_child]
  have hrun : id_main_parent config64 toy_dis id_init_buffer 0
      [WaitRes.ok (W_STOPCODE 19) nop_child, WaitRes.ok (W_STOPCODE SIGTRAP) nop_child,
        WaitRes.ok (W_EXITCODE 0) nop_child] =
      { steps := 2,
        out := [[' ', '4', '0', '1', '0', '0', '0', ':', TAB, '9', '0', ' '] ++
          List.replicate 18 ' ' ++ [TAB, 'n', 'o', 'p', LF]],
        outcome := Outcome.returned } := by
    set_option maxRecDepth 100000 in decide
  exact ⟨by rw [h.1, hrun], by rw [h.2.1, hrun]⟩

/-- C7. For every command (`argc >= 2`) in the parent, when the waits before it are only
interrupted ones or statuses that do not report an exit, the first wait status that reports
that the child exited ends the loop: no further request is issued (the requests are one per
status seen in the loop), the exit status of the program is 0 and no fatal diagnostic is
raised, however many lines were written before. Every status of an exited child counts,
whatever its exit code, that of a child whose `execvp` failed (`EXIT_FAILURE`) included.
The status of the first `waitpid` is not looked at by the program. -/
theorem child_exit_ends_with_status_zero (cfg : Config) (dis : Disassembler) (argc : Int)
    (argv : List String) (os : OS) (w0 pre post : List WaitRes) (st0 st : Nat) (c0 c : Child)
    (hargc : 2 ≤ argc) (hfork : 0 < os.fork)
    (hwaits : os.waits = w0 ++ WaitRes.ok st0 c0 :: (pre ++ WaitRes.ok st c :: post))
    (hw0 : ∀ w ∈ w0, w.interrupted = true) (hpre : ∀ w ∈ pre, w.keeps_going = true)
    (hexit : WIFEXITED st = true) :
    (main cfg dis argc argv os).trace.outcome = Outcome.exit EXIT_SUCCESS ∧
    EXIT_SUCCESS = 0 ∧
    (main cfg dis argc argv os).trace.steps = count_ok pre + 1 ∧
    (main cfg dis argc argv os).trace.out.length ≤ count_ok pre ∧
    (main cfg dis argc argv os).forks = 1 ∧
    (∀ code : Nat, WIFEXITED (W_EXITCODE code) = true) ∧
    (∀ (g : Globals) (os2 : OS), os2.execvp_fails = true →
      id_main_child g os2 = Outcome.fatal EXIT_FAILURE "execvp") ∧
    WIFEXITED (W_EXITCODE EXIT_FAILURE) = true := by
  have hc := id_main_parent_control cfg dis id_init_buffer_ok os.regs os.waits
  have hl := id_main_parent_lines cfg dis id_init_buffer_ok os.regs os.waits
  have hpc : parent_control os.waits = (count_ok pre + 1, Outcome.returned) := by
    rw [hwaits, parent_control_interrupted w0 _ hw0]
    simp only [parent_control]
    rw [control_keeps_going pre _ hpre]
    simp [control, hexit]
  rw [hpc] at hc
  have hsteps : (id_main_parent cfg dis id_init_buffer os.regs os.waits).steps =
      count_ok pre + 1 := hc.1
  have hout : (id_main_parent cfg dis id_init_buffer os.regs os.waits).outcome =
      Outcome.returned := hc.2
  rw [main_parent cfg dis argc argv os hargc hfork]
  refine ⟨?_, rfl, hsteps, ?_, rfl, wifexited_exitcode,
    fun g os2 h => by simp [id_main_child, h], wifexited_exitcode _⟩
  · show (match (id_main_parent cfg dis id_init_buffer os.regs os.waits).outcome with
      | Outcome.returned => Outcome.exit EXIT_SUCCESS
      | o => o) = Outcome.exit EXIT_SUCCESS
    rw [hout]
  · show (id_main_parent cfg dis id_init_buffer os.regs os.waits).out.length ≤ count_ok pre
    have := hl.1
    rw [hsteps] at this
    omega

/-- Witness for C7: `insdump true` with one interrupted wait before the first stop, one stop
in the loop, an interrupted wait and then the exit of a child whose `execvp` failed. -/
theorem child_exit_ends_with_status_zero_witness :
    (main config64 toy_dis 2 ["insdump", "true"]
      { getpid := 100, fork := 101, execvp_fails := false, regs := 0,
        waits := [WaitRes.fail EINTR, WaitRes.ok (W_STOPCODE 19) nop_child,
          WaitRes.ok (W_STOPCODE SIGTRAP) nop_child, WaitRes.fail EINTR,
          WaitRes.ok (W_EXITCODE EXIT_FAILURE) nop_child, WaitRes.fail 10] }).trace.outcome
      = Outcome.exit EXIT_SUCCESS ∧
    (main config64 toy_dis 2 ["insdump", "true"]
      { getpid := 100, fork := 101, execvp_fails := false, regs := 0,
        waits := [WaitRes.fail EINTR, WaitRes.ok (W_STOPCODE 19) nop_child,
          WaitRes.ok (W_STOPCODE SIGTRAP) nop_child, WaitRes.fail EINTR,
          WaitRes.ok (W_EXITCODE EXIT_FAILURE) nop_child, WaitRes.fail 10] }).trace.steps
      = 2 := by
  have h := child_exit_ends_with_status_zero config64 toy_dis 2 ["insdump", "true"]
    { getpid := 100, fork := 101, execvp_fails := false, regs := 0,
      waits := [WaitRes.fail EINTR, WaitRes.ok (W_STOPCODE 19) nop_child,
        WaitRes.ok (W_STOPCODE SIGTRAP) nop_child, WaitRes.fail EINTR,
        WaitRes.ok (W_EXITCODE EXIT_FAILURE) nop_child, WaitRes.fail 10] }
    [WaitRes.fail EINTR] [WaitRes.ok (W_STOPCODE SIGTRAP) nop_child, WaitRes.fail EINTR]
    [WaitRes.fail 10] (W_STOPCODE 19) (W_EXITCODE EXIT_FAILURE) nop_child nop_child
    (by decide) (by decide) rfl (by decide) (by decide) (by decide)
  exact ⟨h.1, h.2.2.1⟩

/-- C8. For every invocation without a command (`argc < 2`) the program ends with the usage
message and the exit status `EXIT_FAILURE`, which is not 0, before `fork` is called, so no
child is created; for every `argc >= 2`, `id_init` does not fail and passes on the
arguments after the program name: `args.argc = argc - 1`, `args.argv = argv + 1`. -/
theorem missing_command_is_a_usage_error (cfg : Config) (dis : Disassembler) (argc : Int)
    (argv : List String) (os : OS) :
    (argc < 2 →
      main cfg dis argc argv os =
        { forks := 0,
          trace :=
            { steps := 0,
              out := [],
              outcome := Outcome.fatal EXIT_FAILURE
                ("Usage: " ++ argv.headD "(null)" ++ " COMMAND [ARGS...]") } }) ∧
    EXIT_FAILURE ≠ 0 ∧
    (2 ≤ argc →
      ∃ g, id_init static_globals argc argv os.getpid = Except.ok g ∧
        g.args.argc = argc - 1 ∧ g.args.argv = argv.drop 1 ∧ g.buffer = id_init_buffer) := by
  refine ⟨fun h => ?_, by decide, fun h => ?_⟩
  · simp only [main, id_init, h, if_true]
  · have h1 : ¬ argc < 2 := by omega
    simp only [id_init, h1, if_false]
    exact ⟨_, rfl, rfl, rfl, rfl⟩

/-- Witness for C8: the program name alone, and a command with one argument. -/
theorem missing_command_is_a_usage_error_witness :
    main config64 toy_dis 1 ["insdump"]
        { getpid := 100, fork := 101, execvp_fails := false, regs := 0, waits := [] } =
      { forks := 0,
        trace :=
          { steps := 0,
            out := [],
            outcome := Outcome.fatal EXIT_FAILURE "Usage: insdump COMMAND [ARGS...]" } } ∧
    ∃ g, id_init static_globals 3 ["insdump", "ls", "-l"] 100 = Except.ok g ∧
      g.args.argc = 2 ∧ g.args.argv = ["ls", "-l"] ∧ g.buffer = id_init_buffer :=
  ⟨(missing_command_is_a_usage_error config64 toy_dis 1 ["insdump"]
      { getpid := 100, fork := 101, execvp_fails := false, regs := 0, waits := [] }).1
      (by decide),
   (missing_command_is_a_usage_error config64 toy_dis 3 ["insdump", "ls", "-l"]
      { getpid := 100, fork := 101, execvp_fails := false, regs := 0, waits := [] }).2.2
      (by decide)⟩

/-- C9. Both blocking waits of the tracer, the one for the first stop of the child and the
one after each single step, retry a wait that fails with `EINTR`: any number of
interruptions before the remaining wait outcomes gives the run of the remaining outcomes
alone, and dropping every interrupted wait from the outcomes changes nothing of what
`id_main_parent` and `main` do. The first wait that fails for another reason ends the
process with the diagnostic of `err` and the exit status `EXIT_FAILURE`, which is not 0. -/
theorem interrupted_waits_are_retried (cfg : Config) (dis : Disassembler) (b : id_buffer)
    (regs : Nat) :
    (∀ (n : Nat) (rest : List WaitRes),
      id_main_parent cfg dis b regs (List.replicate n (WaitRes.fail EINTR) ++ rest) =
        id_main_parent cfg dis b regs rest) ∧
    (∀ (n : Nat) (rest : List WaitRes),
      stepping cfg dis b regs (List.replicate n (WaitRes.fail EINTR) ++ rest) =
        stepping cfg dis b regs rest) ∧
    (∀ waits : List WaitRes,
      id_main_parent cfg dis b regs (waits.filter WaitRes.decisive) =
        id_main_parent cfg dis b regs waits) ∧
    (∀ (argc : Int) (argv : List String) (os : OS),
      main cfg dis argc argv { os with waits := os.waits.filter WaitRes.decisive } =
        main cfg dis argc argv os) ∧
    (∀ (errno : Nat) (rest : List WaitRes), errno ≠ EINTR →
      id_main_parent cfg dis b regs (WaitRes.fail errno :: rest) =
        { steps := 0, out := [], outcome := Outcome.fatal EXIT_FAILURE "waitpid" } ∧
      stepping cfg dis b regs (WaitRes.fail errno :: rest) =
        { steps := 0, out := [], outcome := Outcome.fatal EXIT_FAILURE "waitpid" }) ∧
    (∀ (argc : Int) (argv : List String) (os : OS) (w0 pre post : List WaitRes)
      (st0 : Nat) (c0 : Child) (errno : Nat),
      2 ≤ argc → 0 < os.fork → errno ≠ EINTR →
      (∀ w ∈ w0, w.interrupted = true) → (∀ w ∈ pre, w.keeps_going = true) →
      (os.waits = w0 ++ WaitRes.fail errno :: post ∨
        os.waits = w0 ++ WaitRes.ok st0 c0 :: (pre ++ WaitRes.fail errno :: post)) →
      (main cfg dis argc argv os).trace.outcome = Outcome.fatal EXIT_FAILURE "waitpid") ∧
    EXIT_FAILURE ≠ 0 := by
  refine ⟨fun n rest => id_main_parent_replicate_eintr cfg dis b regs rest n,
    fun n rest => stepping_replicate_eintr cfg dis b regs rest n,
    fun waits => id_main_parent_filter cfg dis b regs waits,
    fun argc argv os => main_filter cfg dis argc argv os,
    fun errno rest he => ⟨id_main_parent_fail cfg dis b regs he rest,
      stepping_fail cfg dis b regs he rest⟩,
    ?_, by decide⟩
  intro argc argv os w0 pre post st0 c0 errno hargc hfork he hw0 hpre hwaits
  have hc := id_main_parent_control cfg dis id_init_buffer_ok os.regs os.waits
  have hpc : (parent_control os.waits).2 = Outcome.fatal EXIT_FAILURE "waitpid" := by
    rcases hwaits with h | h
    · rw [h, parent_control_interrupted w0 _ hw0]
      simp [parent_control, he]
    · rw [h, parent_control_interrupted w0 _ hw0]
      simp only [parent_control]
      rw [control_keeps_going pre _ hpre]
      simp [control, he]
  have hout : (id_main_parent cfg dis id_init_buffer os.regs os.waits).outcome =
      Outcome.fatal EXIT_FAILURE "waitpid" := by rw [hc.2, hpc]
  rw [main_parent cfg dis argc argv os hargc hfork]
  show (match (id_main_parent cfg dis id_init_buffer os.regs os.waits).outcome with
    | Outcome.returned => Outcome.exit EXIT_SUCCESS
    | o => o) = Outcome.fatal EXIT_FAILURE "waitpid"
  rw [hout]

/-- Witness for C9: three interruptions before the first stop and two before the exit
status give the run without them; a wait failing with `ECHILD` (10) in the loop is fatal. -/
theorem interrupted_waits_are_retried_witness :
    id_main_parent config64 toy_dis id_init_buffer 0
        (List.replicate 3 (WaitRes.fail EINTR) ++
          [WaitRes.ok (W_STOPCODE 19) nop_child, WaitRes.fail EINTR, WaitRes.fail EINTR,
            WaitRes.ok (W_EXITCODE 0) nop_child]) =
      id_main_parent config64 toy_dis id_init_buffer 0
        [WaitRes.ok (W_STOPCODE 19) nop_child, WaitRes.ok (W_EXITCODE 0) nop_child] ∧
    (main config64 toy_dis 2 ["insdump", "true"]
      { getpid := 100, fork := 101, execvp_fails := false, regs := 0,
        waits := [WaitRes.fail EINTR, WaitRes.ok (W_STOPCODE 19) nop_child,
          WaitRes.ok (W_STOPCODE SIGTRAP) nop_child, WaitRes.fail 10] }).trace.outcome =
      Outcome.fatal EXIT_FAILURE "waitpid" := by
  have h := interrupted_waits_are_retried config64 toy_dis id_init_buffer 0
  refine ⟨?_, ?_⟩
  · rw [h.1 3]
    exact (h.2.2.1 [WaitRes.ok (W_STOPCODE 19) nop_child, WaitRes.fail EINTR,
      WaitRes.fail EINTR, WaitRes.ok (W_EXITCODE 0) nop_child]).symm
  · exact h.2.2.2.2.2.1 2 ["insdump", "true"]
      { getpid := 100, fork := 101, execvp_fails := false, regs := 0,
        waits := [WaitRes.fail EINTR, WaitRes.ok (W_STOPCODE 19) nop_child,
          WaitRes.ok (W_STOPCODE SIGTRAP) nop_child, WaitRes.fail 10] }
      [WaitRes.fail EINTR] [WaitRes.ok (W_STOPCODE SIGTRAP) nop_child] [] (W_STOPCODE 19)
      nop_child 10 (by decide) (by decide) (by decide) (by decide) (by decide)
      (Or.inr rfl)

/-- C10, as the specification states it, fails: in both builds the window has 16 bytes,
which is not the maximum length of an instruction, 15 bytes by the comment of the source. -/
theorem window_is_longer_than_an_instruction :
    (instr_bytes config64 (snapshot config64 ramp_child 4198400)).length = 16 ∧
    (instr_bytes config32 (snapshot config32 ramp_child 4198400)).length = 16 ∧
    MAX_INSTR_LEN = 15 ∧
    (instr_bytes config64 (snapshot config64 ramp_child 4198400)).length ≠ MAX_INSTR_LEN ∧
    (instr_bytes config32 (snapshot config32 ramp_child 4198400)).length ≠ MAX_INSTR_LEN := by
  set_option maxRecDepth 100000 in decide

/-- C10, amended. For every instruction pointer and every child memory whose words
`PTRACE_PEEKDATA` reads, the snapshot filled in a loop iteration starts at the instruction
pointer and is a contiguous, correctly ordered window of the memory: it has
`WORDS_PER_INSTR * sizeof (long)` bytes, and byte `i` of it (as an unsigned value) is the
memory byte at address `ip + i` (modulo the size of the address space). That length is 16
in the 64-bit build (2 words) and in the 32-bit build (4 words): one byte more than the
15 byte maximum length of an instruction. -/
theorem window_is_memory_at_ip (cfg : Config) (c : Child) (pc : Nat)
    (hpeek : ∀ a, c.peek_fails a = false) :
    to_ulong cfg (snapshot cfg c pc).ip = pc % 2 ^ LONG_BIT cfg ∧
    (instr_bytes cfg (snapshot cfg c pc)).length = WORDS_PER_INSTR cfg * cfg.sizeof_long ∧
    (∀ i : Nat, i < WORDS_PER_INSTR cfg * cfg.sizeof_long →
      ((instr_bytes cfg (snapshot cfg c pc))[i]?).map (fun b => (b % 256).toNat) =
        some (c.mem ((pc + i) % 2 ^ LONG_BIT cfg) % 256)) ∧
    WORDS_PER_INSTR config64 * config64.sizeof_long = 16 ∧
    WORDS_PER_INSTR config32 * config32.sizeof_long = 16 ∧
    16 = MAX_INSTR_LEN + 1 := by
  refine ⟨to_ulong_to_long cfg pc, snapshot_bytes_length cfg c pc, fun i hi => ?_,
    by decide, by decide, by decide⟩
  rw [← List.getElem?_map, window_bytes cfg c hpeek pc, List.getElem?_map,
    List.getElem?_range hi]
  rfl

/-- Witness for C10: the 32-bit build on a memory whose byte at address `a` is `a % 256`;
byte 5 of the window at 0x401000 is 5. -/
theorem window_is_memory_at_ip_witness :
    ((instr_bytes config32 (snapshot config32 ramp_child 4198400))[5]?).map
        (fun b => (b % 256).toNat) = some 5 ∧
    (instr_bytes config32 (snapshot config32 ramp_child 4198400)).length = 16 := by
  have h := window_is_memory_at_ip config32 ramp_child 4198400 (fun _ => rfl)
  refine ⟨?_, ?_⟩
  · rw [h.2.2.1 5 (by decide)]
    decide
  · rw [h.2.1]
    decide

end Insdump
